import Mathlib

/-!
CircularBuffer: a shallow embedding of `CircularBuffer<T, S, IT>`
(CircularBuffer.tpp) and proofs of the properties its specification states.

Modelling choices.

* The template parameter `S` (the constant `capacity`) is a parameter of the
  state type.
* The backing array `buffer` is a list of slots.  A slot is `some v` while it
  holds a constructed `T` and `none` while it does not (never constructed, or
  destructed): placement `new` writes `some v`, the destructor call `~T ()`
  writes `none`.
* The pointers `head` and `tail` are kept as offsets from `buffer`
  (`head - buffer`, `tail - buffer`), natural numbers.
* Reading a slot (`first`, `last`, `operator []`, and the value moved out by
  `shift` / `pop`) yields `Option T`: `none` means that the slot read holds no
  constructed object.
* `return nullptr` in `shift` / `pop` is the value `T (nullptr)`; it is the
  `default` element of `T`.
* `count` never exceeds `capacity` and is decremented only when positive, so it
  is a natural number.
* `push` and `unshift` take a forwarding reference.  `push` and `unshift` below
  are the calls whose argument is an object outside the buffer; `pushArg` and
  `unshiftArg` are the calls whose argument may also refer to a slot of the
  buffer, read when the placement construction runs.  `Reachable` and `run`
  range over the calls of the first kind.
* `get` is `operator []` with the sum `head - buffer + index` taken without
  wrap-around, which is exact for every index below `size ()`; `getW` is
  `operator []` with the sum evaluated in `w` bits, for arbitrary index values.
-/

/-- State of a `CircularBuffer<T, S, IT>`: the backing array and the three
members `head`, `tail`, `count`. -/
structure CircularBuffer (T : Type) (S : Nat) where
  /-- The array `buffer`, one entry per slot. -/
  buffer : List (Option T)
  /-- Offset of the pointer `head` from `buffer`. -/
  head : Nat
  /-- Offset of the pointer `tail` from `buffer`. -/
  tail : Nat
  /-- Number of stored elements. -/
  count : Nat
  deriving DecidableEq, Repr

namespace CircularBuffer

variable {T : Type} {S : Nat}

/-- Constructor: `head (buffer), tail (buffer), count (0)`; no slot holds an
object. -/
def new (T : Type) (S : Nat) : CircularBuffer T S :=
  { buffer := List.replicate S none, head := 0, tail := 0, count := 0 }

/-- Destructor call `p->value.~T ()` on the slot at offset `p`. -/
def destroy (buf : List (Option T)) (p : Nat) : List (Option T) :=
  buf.set p none

/-- Placement construction `new (&p->value) T (value)` on the slot at offset `p`. -/
def construct (buf : List (Option T)) (p : Nat) (value : T) : List (Option T) :=
  buf.set p (some value)

/-- Read of `p->value` for the slot at offset `p`. -/
def slot (buf : List (Option T)) (p : Nat) : Option T :=
  buf.getD p none

/-- Member `unshift`, called with an object `value` that is not an element of
this buffer (for an argument that refers to an element, see `unshiftArg`):
returns the boolean result and the state after the call. -/
def unshift (s : CircularBuffer T S) (value : T) : Bool × CircularBuffer T S :=
  -- if (head == buffer) head = buffer + capacity;  --head;
  let head := (if s.head = 0 then S else s.head) - 1
  -- if (count == capacity) head->value.~T ();
  let buf := if s.count = S then destroy s.buffer head else s.buffer
  -- new (&head->value) T (value);
  let buf := construct buf head value
  if s.count = S then
    -- if (tail-- == buffer) tail = buffer + capacity - 1;
    let tail := if s.tail = 0 then S - 1 else s.tail - 1
    (false, { buffer := buf, head := head, tail := tail, count := s.count })
  else
    -- if (count++ == 0) tail = head;
    let tail := if s.count = 0 then head else s.tail
    (true, { buffer := buf, head := head, tail := tail, count := s.count + 1 })

/-- Member `push`, called with an object `value` that is not an element of this
buffer (for an argument that refers to an element, see `pushArg`): returns the
boolean result and the state after the call. -/
def push (s : CircularBuffer T S) (value : T) : Bool × CircularBuffer T S :=
  -- if (++tail == buffer + capacity) tail = buffer;
  let tail := if s.tail + 1 = S then 0 else s.tail + 1
  -- if (count == capacity) tail->value.~T ();
  let buf := if s.count = S then destroy s.buffer tail else s.buffer
  -- new (&tail->value) T (value);
  let buf := construct buf tail value
  if s.count = S then
    -- if (++head == buffer + capacity) head = buffer;
    let head := if s.head + 1 = S then 0 else s.head + 1
    (false, { buffer := buf, head := head, tail := tail, count := s.count })
  else
    -- if (count++ == 0) head = tail;
    let head := if s.count = 0 then tail else s.head
    (true, { buffer := buf, head := head, tail := tail, count := s.count + 1 })

/-- Member `shift`: returns the result and the state after the call.  The
result is `some default` on the `return nullptr` path, and otherwise what the
slot at `head` held. -/
def shift [Inhabited T] (s : CircularBuffer T S) : Option T × CircularBuffer T S :=
  -- if (count <= 0) return nullptr;
  if s.count ≤ 0 then (some default, s)
  else
    -- T result (move (head->value));  head->value.~T ();
    let result := slot s.buffer s.head
    let buf := destroy s.buffer s.head
    -- head++;  if (head >= buffer + capacity) head = buffer;
    let head := if s.head + 1 ≥ S then 0 else s.head + 1
    -- count--;
    (result, { buffer := buf, head := head, tail := s.tail, count := s.count - 1 })

/-- Member `pop`: returns the result and the state after the call.  The
result is `some default` on the `return nullptr` path, and otherwise what the
slot at `tail` held. -/
def pop [Inhabited T] (s : CircularBuffer T S) : Option T × CircularBuffer T S :=
  -- if (count <= 0) return nullptr;
  if s.count ≤ 0 then (some default, s)
  else
    -- T result (move (tail->value));  tail->value.~T ();
    let result := slot s.buffer s.tail
    let buf := destroy s.buffer s.tail
    -- tail--;  if (tail < buffer) tail = buffer + capacity - 1;
    let tail := if s.tail = 0 then S - 1 else s.tail - 1
    -- count--;
    (result, { buffer := buf, head := s.head, tail := tail, count := s.count - 1 })

/-- Member `first`: `head->value`. -/
def first (s : CircularBuffer T S) : Option T :=
  slot s.buffer s.head

/-- Member `last`: `tail->value`. -/
def last (s : CircularBuffer T S) : Option T :=
  slot s.buffer s.tail

/-- Member `operator []`: `(buffer + ((head - buffer + index) % capacity))->value`. -/
def get (s : CircularBuffer T S) (index : Nat) : Option T :=
  slot s.buffer ((s.head + index) % S)

/-- Member `size`. -/
def size (s : CircularBuffer T S) : Nat :=
  s.count

/-- Member `available`: `capacity - count`. -/
def available (s : CircularBuffer T S) : Nat :=
  S - s.count

/-- Member `isEmpty`. -/
def isEmpty (s : CircularBuffer T S) : Bool :=
  s.count == 0

/-- Member `isFull`. -/
def isFull (s : CircularBuffer T S) : Bool :=
  s.count == S

/-- Loop of `clear`: `n` iterations that destroy the slot at `scan` and advance
`scan`, wrapping at `buffer + capacity`. -/
def clearLoop (S : Nat) (buf : List (Option T)) (scan : Nat) : Nat → List (Option T)
  | 0 => buf
  | n + 1 =>
    -- scan->value.~T ();  if (++scan == buffer + capacity) scan = buffer;
    clearLoop S (destroy buf scan) (if scan + 1 = S then 0 else scan + 1) n

/-- Member `clear`. -/
def clear (s : CircularBuffer T S) : CircularBuffer T S :=
  -- for (IT i = 0; i < count; i++) ...;  head = tail = buffer;  count = 0;
  { buffer := clearLoop S s.buffer s.head s.count, head := 0, tail := 0, count := 0 }

/-- The five mutating members, as calls. -/
inductive Op (T : Type) where
  | push (value : T)
  | unshift (value : T)
  | shift
  | pop
  | clear
  deriving DecidableEq, Repr

/-- State after one call. -/
def step [Inhabited T] (s : CircularBuffer T S) : Op T → CircularBuffer T S
  | .push v => (push s v).2
  | .unshift v => (unshift s v).2
  | .shift => (shift s).2
  | .pop => (pop s).2
  | .clear => clear s

/-- State after a sequence of calls, made in list order. -/
def run [Inhabited T] (s : CircularBuffer T S) (ops : List (Op T)) : CircularBuffer T S :=
  ops.foldl step s

/-- A state is reachable when some sequence of calls on a newly constructed
buffer produces it. -/
def Reachable [Inhabited T] (s : CircularBuffer T S) : Prop :=
  ∃ ops : List (Op T), run (new T S) ops = s

/-- State after pushing the values of a list, in list order. -/
def pushAll (s : CircularBuffer T S) (vs : List T) : CircularBuffer T S :=
  vs.foldl (fun st v => (push st v).2) s

/-- Results returned by the successive `push` calls of `pushAll`. -/
def pushResults : CircularBuffer T S → List T → List Bool
  | _, [] => []
  | s, v :: vs => (push s v).1 :: pushResults (push s v).2 vs

/-- State after unshifting the values of a list, in list order. -/
def unshiftAll (s : CircularBuffer T S) (vs : List T) : CircularBuffer T S :=
  vs.foldl (fun st v => (unshift st v).2) s

/-- Logical contents: `buffer[0]`, ..., `buffer[size () - 1]` read through
`operator []`, oldest first. -/
def contents (s : CircularBuffer T S) : List (Option T) :=
  (List.range (size s)).map (get s)

/-- List model of `push`, in the words of the specification: the value is
appended at the newest end; when the buffer is full the oldest element is
evicted first. -/
def pushModel (S : Nat) (L : List (Option T)) (v : T) : List (Option T) :=
  if L.length < S then L ++ [some v] else L.tail ++ [some v]

/-- List model of `unshift`, in the words of the specification: the value is
inserted at the oldest end; when the buffer is full the newest element is
evicted first. -/
def unshiftModel (S : Nat) (L : List (Option T)) (v : T) : List (Option T) :=
  if L.length < S then some v :: L else some v :: L.dropLast

/-- Representation invariant of the three cursors and the backing array: the
array has `capacity` slots, `head` and `tail` point into it, `count` is at most
`capacity`, and `tail` is `count - 1` slots after `head` (circularly) whenever
the buffer is not empty. -/
structure Inv (s : CircularBuffer T S) : Prop where
  len : s.buffer.length = S
  head_lt : s.head < S
  tail_lt : s.tail < S
  count_le : s.count ≤ S
  tail_eq : 0 < s.count → s.tail = (s.head + s.count - 1) % S

/-- Cursor invariant, in the words of the specification: `head` and `tail` are
slot positions in `[0, capacity)`, `count` is at most `capacity`, and `tail` is
`(head + count - 1) mod capacity` whenever `count > 0`. -/
def CursorInv (s : CircularBuffer T S) : Prop :=
  s.head < S ∧ s.tail < S ∧ s.count ≤ S ∧
    (0 < s.count → s.tail = (s.head + s.count - 1) % S)

/-- Offset of the slot that `operator []` selects:
`(head - buffer + index) % capacity`, the sum taken without wrap-around. -/
def slotIndex (s : CircularBuffer T S) (index : Nat) : Nat :=
  (s.head + index) % S

/-- Offset of the slot that `operator []` selects when the sum
`head - buffer + index` is evaluated in an unsigned integer type of `w` bits:
the common type of `ptrdiff_t` and `IT` is unsigned as soon as `IT` is at least
as wide as `ptrdiff_t`, and the sum then wraps modulo `2 ^ w` before
`% capacity` is taken. -/
def slotIndexW (w : Nat) (s : CircularBuffer T S) (index : Nat) : Nat :=
  ((s.head + index) % 2 ^ w) % S

/-- Member `operator []` with the sum evaluated in an unsigned type of `w` bits. -/
def getW (w : Nat) (s : CircularBuffer T S) (index : Nat) : Option T :=
  slot s.buffer (slotIndexW w s index)

/-- The slot position `p` is one of the `count` positions
`(head + i) mod capacity`, `0 ≤ i < count`. -/
def inLiveRange (s : CircularBuffer T S) (p : Nat) : Prop :=
  ∃ i, i < s.count ∧ p = (s.head + i) % S

/-- Liveness invariant: the slots holding a constructed object are exactly the
`count` slots at positions `(head + i) mod capacity`, `0 ≤ i < count`. -/
def LiveInv (s : CircularBuffer T S) : Prop :=
  ∀ p, p < S → ((slot s.buffer p).isSome = true ↔ inLiveRange s p)

/-- Number of slots of the array that hold a constructed object. -/
def liveCount (s : CircularBuffer T S) : Nat :=
  ((List.range S).filter (fun p => (slot s.buffer p).isSome)).length

/-- A placement construction is well-formed when its target is a slot of the
array that holds no object at that moment. -/
def constructOk (buf : List (Option T)) (p : Nat) : Bool :=
  decide (p < buf.length) && (slot buf p).isNone

/-- A destructor call is well-formed when its target holds an object at that
moment. -/
def destroyOk (buf : List (Option T)) (p : Nat) : Bool :=
  (slot buf p).isSome

/-- Lifetime check of `unshift`: the destructor call and the placement
construction it makes, in source order, are well-formed. -/
def unshiftOk (s : CircularBuffer T S) : Bool :=
  let head := (if s.head = 0 then S else s.head) - 1
  -- if (count == capacity) head->value.~T ();
  (if s.count = S then destroyOk s.buffer head else true) &&
    -- new (&head->value) T (value);
    constructOk (if s.count = S then destroy s.buffer head else s.buffer) head

/-- Lifetime check of `push`: the destructor call and the placement construction
it makes, in source order, are well-formed. -/
def pushOk (s : CircularBuffer T S) : Bool :=
  let tail := if s.tail + 1 = S then 0 else s.tail + 1
  -- if (count == capacity) tail->value.~T ();
  (if s.count = S then destroyOk s.buffer tail else true) &&
    -- new (&tail->value) T (value);
    constructOk (if s.count = S then destroy s.buffer tail else s.buffer) tail

/-- Lifetime check of `shift`: the slot at `head` that is moved from and
destructed holds an object. -/
def shiftOk (s : CircularBuffer T S) : Bool :=
  if s.count ≤ 0 then true else destroyOk s.buffer s.head

/-- Lifetime check of `pop`: the slot at `tail` that is moved from and
destructed holds an object. -/
def popOk (s : CircularBuffer T S) : Bool :=
  if s.count ≤ 0 then true else destroyOk s.buffer s.tail

/-- Lifetime check of the loop of `clear`: every destructor call is made on a
slot that holds an object at that moment. -/
def clearLoopOk (S : Nat) (buf : List (Option T)) (scan : Nat) : Nat → Bool
  | 0 => true
  | n + 1 =>
    destroyOk buf scan &&
      clearLoopOk S (destroy buf scan) (if scan + 1 = S then 0 else scan + 1) n

/-- Lifetime check of `clear`. -/
def clearOk (s : CircularBuffer T S) : Bool :=
  clearLoopOk S s.buffer s.head s.count

/-- Lifetime check of one call. -/
def stepOk (s : CircularBuffer T S) : Op T → Bool
  | .push _ => pushOk s
  | .unshift _ => unshiftOk s
  | .shift => shiftOk s
  | .pop => popOk s
  | .clear => clearOk s

/-- Results of `n` successive `shift` calls, in call order, and the state after
them. -/
def shiftN [Inhabited T] : Nat → CircularBuffer T S → List (Option T) × CircularBuffer T S
  | 0, s => ([], s)
  | n + 1, s => ((shift s).1 :: (shiftN n (shift s).2).1, (shiftN n (shift s).2).2)

/-- Results of `n` successive `pop` calls, in call order, and the state after
them. -/
def popN [Inhabited T] : Nat → CircularBuffer T S → List (Option T) × CircularBuffer T S
  | 0, s => ([], s)
  | n + 1, s => ((pop s).1 :: (popN n (pop s).2).1, (popN n (pop s).2).2)

/-- Argument of `push` and `unshift`.  Both take a forwarding reference
`W&& value`, so the caller passes either an object that is not an element of
this buffer (`val`), or a reference to the element in the slot at offset `p`
of this buffer, such as `first ()`, `last ()` or `buffer[i]` (`ref`). -/
inductive Arg (T : Type) where
  | val (v : T)
  | ref (p : Nat)
  deriving DecidableEq, Repr

/-- Object that the argument designates when it is read against the array
`buf`: a reference to a slot yields what that slot holds at that moment, `none`
when the slot holds no constructed object. -/
def Arg.read (buf : List (Option T)) : Arg T → Option T
  | .val v => some v
  | .ref p => slot buf p

/-- Placement construction `new (&p->value) T (static_cast<W&&> (value))` on the
slot at offset `p`: the argument is read when the construction runs, against
the array as it is then. -/
def constructFrom (buf : List (Option T)) (p : Nat) (value : Arg T) : List (Option T) :=
  buf.set p (value.read buf)

/-- Member `unshift` with its argument passed by reference: returns the boolean
result and the state after the call. -/
def unshiftArg (s : CircularBuffer T S) (value : Arg T) : Bool × CircularBuffer T S :=
  -- if (head == buffer) head = buffer + capacity;  --head;
  let head := (if s.head = 0 then S else s.head) - 1
  -- if (count == capacity) head->value.~T ();
  let buf := if s.count = S then destroy s.buffer head else s.buffer
  -- new (&head->value) T (static_cast<W&&> (value));
  let buf := constructFrom buf head value
  if s.count = S then
    -- if (tail-- == buffer) tail = buffer + capacity - 1;
    let tail := if s.tail = 0 then S - 1 else s.tail - 1
    (false, { buffer := buf, head := head, tail := tail, count := s.count })
  else
    -- if (count++ == 0) tail = head;
    let tail := if s.count = 0 then head else s.tail
    (true, { buffer := buf, head := head, tail := tail, count := s.count + 1 })

/-- Member `push` with its argument passed by reference: returns the boolean
result and the state after the call. -/
def pushArg (s : CircularBuffer T S) (value : Arg T) : Bool × CircularBuffer T S :=
  -- if (++tail == buffer + capacity) tail = buffer;
  let tail := if s.tail + 1 = S then 0 else s.tail + 1
  -- if (count == capacity) tail->value.~T ();
  let buf := if s.count = S then destroy s.buffer tail else s.buffer
  -- new (&tail->value) T (static_cast<W&&> (value));
  let buf := constructFrom buf tail value
  if s.count = S then
    -- if (++head == buffer + capacity) head = buffer;
    let head := if s.head + 1 = S then 0 else s.head + 1
    (false, { buffer := buf, head := head, tail := tail, count := s.count })
  else
    -- if (count++ == 0) head = tail;
    let head := if s.count = 0 then tail else s.head
    (true, { buffer := buf, head := head, tail := tail, count := s.count + 1 })

end CircularBuffer

namespace CircularBuffer

variable {T : Type} {S : Nat}

/-! ## Arithmetic and slot lemmas -/

theorem mod_wrap {S x : Nat} (h : x < 2 * S) :
    x % S = if x < S then x else x - S := by
  split
  · exact Nat.mod_eq_of_lt (by assumption)
  · rw [Nat.mod_eq_sub_mod (by omega)]
    exact Nat.mod_eq_of_lt (by omega)

theorem getD_set {α : Type} (l : List α) (p q : Nat) (a d : α) :
    (l.set p a).getD q d = if p = q ∧ p < l.length then a else l.getD q d := by
  simp only [List.getD_eq_getElem?_getD, List.getElem?_set]
  by_cases h : p = q
  · subst h
    by_cases h2 : p < l.length
    · simp [h2]
    · simp [h2, List.getElem?_eq_none (Nat.le_of_not_lt h2)]
  · simp [h]

theorem slot_construct (buf : List (Option T)) (p q : Nat) (v : T) :
    slot (construct buf p v) q = if p = q ∧ p < buf.length then some v else slot buf q :=
  getD_set buf p q (some v) none

theorem slot_destroy (buf : List (Option T)) (p q : Nat) :
    slot (destroy buf p) q = if p = q ∧ p < buf.length then none else slot buf q :=
  getD_set buf p q none none

theorem length_construct (buf : List (Option T)) (p : Nat) (v : T) :
    (construct buf p v).length = buf.length := by
  simp [construct]

theorem length_destroy (buf : List (Option T)) (p : Nat) :
    (destroy buf p).length = buf.length := by
  simp [destroy]

theorem construct_destroy (buf : List (Option T)) (p : Nat) (v : T) :
    construct (destroy buf p) p v = construct buf p v := by
  simp [construct, destroy]

/-! ## The fields of the state after each call -/

theorem push_fst (s : CircularBuffer T S) (v : T) :
    (push s v).1 = !decide (s.count = S) := by
  simp only [push]; split_ifs <;> simp_all

theorem push_count (s : CircularBuffer T S) (v : T) :
    (push s v).2.count = if s.count = S then s.count else s.count + 1 := by
  simp only [push]; split_ifs <;> rfl

theorem push_tail (s : CircularBuffer T S) (v : T) :
    (push s v).2.tail = if s.tail + 1 = S then 0 else s.tail + 1 := by
  simp only [push]; split_ifs <;> rfl

theorem push_head (s : CircularBuffer T S) (v : T) :
    (push s v).2.head =
      if s.count = S then (if s.head + 1 = S then 0 else s.head + 1)
      else if s.count = 0 then (if s.tail + 1 = S then 0 else s.tail + 1) else s.head := by
  simp only [push]; split_ifs <;> rfl

theorem push_buffer (s : CircularBuffer T S) (v : T) :
    (push s v).2.buffer = construct s.buffer (if s.tail + 1 = S then 0 else s.tail + 1) v := by
  simp only [push]; split_ifs <;> simp_all [construct_destroy]

theorem unshift_fst (s : CircularBuffer T S) (v : T) :
    (unshift s v).1 = !decide (s.count = S) := by
  simp only [unshift]; split_ifs <;> simp_all

theorem unshift_count (s : CircularBuffer T S) (v : T) :
    (unshift s v).2.count = if s.count = S then s.count else s.count + 1 := by
  simp only [unshift]; split_ifs <;> rfl

theorem unshift_head (s : CircularBuffer T S) (v : T) :
    (unshift s v).2.head = (if s.head = 0 then S else s.head) - 1 := by
  simp only [unshift]; split_ifs <;> rfl

theorem unshift_tail (s : CircularBuffer T S) (v : T) :
    (unshift s v).2.tail =
      if s.count = S then (if s.tail = 0 then S - 1 else s.tail - 1)
      else if s.count = 0 then (if s.head = 0 then S else s.head) - 1 else s.tail := by
  simp only [unshift]; split_ifs <;> rfl

theorem unshift_buffer (s : CircularBuffer T S) (v : T) :
    (unshift s v).2.buffer = construct s.buffer ((if s.head = 0 then S else s.head) - 1) v := by
  simp only [unshift]; split_ifs <;> simp_all [construct_destroy]

theorem shift_of_pos [Inhabited T] (s : CircularBuffer T S) (h : 0 < s.count) :
    shift s = (slot s.buffer s.head,
      { buffer := destroy s.buffer s.head, head := if s.head + 1 ≥ S then 0 else s.head + 1,
        tail := s.tail, count := s.count - 1 }) := by
  unfold shift; rw [if_neg (by omega)]

theorem shift_of_zero [Inhabited T] (s : CircularBuffer T S) (h : s.count = 0) :
    shift s = (some default, s) := by
  unfold shift; rw [if_pos (by omega)]

theorem pop_of_pos [Inhabited T] (s : CircularBuffer T S) (h : 0 < s.count) :
    pop s = (slot s.buffer s.tail,
      { buffer := destroy s.buffer s.tail, head := s.head,
        tail := if s.tail = 0 then S - 1 else s.tail - 1, count := s.count - 1 }) := by
  unfold pop; rw [if_neg (by omega)]

theorem pop_of_zero [Inhabited T] (s : CircularBuffer T S) (h : s.count = 0) :
    pop s = (some default, s) := by
  unfold pop; rw [if_pos (by omega)]

theorem length_clearLoop (S : Nat) (n : Nat) :
    ∀ (buf : List (Option T)) (scan : Nat), (clearLoop S buf scan n).length = buf.length := by
  induction n with
  | zero => intro buf scan; rfl
  | succ n ih => intro buf scan; simp [clearLoop, ih, length_destroy]

/-! ## Representation invariant -/

theorem Inv.tail_cases {s : CircularBuffer T S} (h : Inv s) (hc : 0 < s.count) :
    (s.head + s.count ≤ S ∧ s.tail + 1 = s.head + s.count) ∨
      (S < s.head + s.count ∧ s.tail + 1 + S = s.head + s.count) := by
  have h1 := h.tail_eq hc
  have h2 := h.head_lt
  have h3 := h.count_le
  rw [mod_wrap (by omega)] at h1
  split at h1 <;> omega

theorem Inv.of_cases {s : CircularBuffer T S} (hlen : s.buffer.length = S)
    (hh : s.head < S) (ht : s.tail < S) (hc : s.count ≤ S)
    (hcase : 0 < s.count → (s.head + s.count ≤ S ∧ s.tail + 1 = s.head + s.count) ∨
      (S < s.head + s.count ∧ s.tail + 1 + S = s.head + s.count)) : Inv s := by
  refine ⟨hlen, hh, ht, hc, fun hpos => ?_⟩
  rw [mod_wrap (by omega)]
  have := hcase hpos
  split <;> omega

theorem inv_new (hS : 0 < S) : Inv (new T S) := by
  constructor <;> simp [new, hS]

theorem inv_push (hS : 0 < S) {s : CircularBuffer T S} (h : Inv s) (v : T) :
    Inv (push s v).2 := by
  have h1 := h.head_lt
  have h2 := h.tail_lt
  have h3 := h.count_le
  have h5 := h.tail_cases
  apply Inv.of_cases
  · rw [push_buffer, length_construct, h.len]
  · rw [push_head]; split_ifs <;> omega
  · rw [push_tail]; split_ifs <;> omega
  · rw [push_count]; split_ifs <;> omega
  · rw [push_head, push_tail, push_count]; intro _; split_ifs <;> omega

theorem inv_unshift (hS : 0 < S) {s : CircularBuffer T S} (h : Inv s) (v : T) :
    Inv (unshift s v).2 := by
  have h1 := h.head_lt
  have h2 := h.tail_lt
  have h3 := h.count_le
  have h5 := h.tail_cases
  apply Inv.of_cases
  · rw [unshift_buffer, length_construct, h.len]
  · rw [unshift_head]; split_ifs <;> omega
  · rw [unshift_tail]; split_ifs <;> omega
  · rw [unshift_count]; split_ifs <;> omega
  · rw [unshift_head, unshift_tail, unshift_count]; intro _; split_ifs <;> omega

theorem inv_shift [Inhabited T] (hS : 0 < S) {s : CircularBuffer T S} (h : Inv s) :
    Inv (shift s).2 := by
  by_cases hc : s.count = 0
  · rw [shift_of_zero s hc]; exact h
  · have h1 := h.head_lt
    have h2 := h.tail_lt
    have h3 := h.count_le
    have h5 := h.tail_cases
    rw [shift_of_pos s (by omega)]
    apply Inv.of_cases
    · simp only [length_destroy, h.len]
    · simp only; split_ifs <;> omega
    · simp only; omega
    · simp only; omega
    · simp only; intro _; split_ifs <;> omega

theorem inv_pop [Inhabited T] (hS : 0 < S) {s : CircularBuffer T S} (h : Inv s) :
    Inv (pop s).2 := by
  by_cases hc : s.count = 0
  · rw [pop_of_zero s hc]; exact h
  · have h1 := h.head_lt
    have h2 := h.tail_lt
    have h3 := h.count_le
    have h5 := h.tail_cases
    rw [pop_of_pos s (by omega)]
    apply Inv.of_cases
    · simp only [length_destroy, h.len]
    · simp only; omega
    · simp only; split_ifs <;> omega
    · simp only; omega
    · simp only; intro _; split_ifs <;> omega

theorem inv_clear (hS : 0 < S) {s : CircularBuffer T S} (h : Inv s) : Inv (clear s) := by
  refine ⟨?_, hS, hS, Nat.zero_le _, fun hpos => absurd hpos (Nat.lt_irrefl 0)⟩
  simp only [clear, length_clearLoop, h.len]

theorem inv_step [Inhabited T] (hS : 0 < S) {s : CircularBuffer T S} (h : Inv s) (op : Op T) :
    Inv (step s op) := by
  cases op with
  | push v => exact inv_push hS h v
  | unshift v => exact inv_unshift hS h v
  | shift => exact inv_shift hS h
  | pop => exact inv_pop hS h
  | clear => exact inv_clear hS h

theorem inv_run [Inhabited T] (hS : 0 < S) (ops : List (Op T)) :
    ∀ {s : CircularBuffer T S}, Inv s → Inv (run s ops) := by
  induction ops with
  | nil => intro s h; exact h
  | cons op ops ih => intro s h; exact ih (inv_step hS h op)

theorem inv_of_reachable [Inhabited T] (hS : 0 < S) {s : CircularBuffer T S}
    (h : Reachable s) : Inv s := by
  obtain ⟨ops, rfl⟩ := h
  exact inv_run hS ops (inv_new hS)

end CircularBuffer

namespace CircularBuffer

variable {T : Type} {S : Nat}

/-! ## `operator []` after `push` and `unshift` -/

theorem get_push_lt (hS : 0 < S) {s : CircularBuffer T S} (h : Inv s) (v : T)
    (hc : s.count < S) {i : Nat} (hi : i < s.count) :
    get (push s v).2 i = get s i := by
  have h1 := h.head_lt
  have h2 := h.tail_lt
  have h5 := h.tail_cases (by omega)
  have e1 : ¬ s.count = S := by omega
  have e2 : ¬ s.count = 0 := by omega
  have e3 : s.head + i < 2 * S := by omega
  simp only [get, push_buffer, push_head, slot_construct, h.len, if_neg e1, if_neg e2,
    mod_wrap e3]
  split_ifs <;> first | rfl | omega

theorem get_push_count (hS : 0 < S) {s : CircularBuffer T S} (h : Inv s) (v : T)
    (hc : s.count < S) :
    get (push s v).2 s.count = some v := by
  have h1 := h.head_lt
  have h2 := h.tail_lt
  have h5 := h.tail_cases
  have e1 : ¬ s.count = S := by omega
  simp only [get, push_buffer, push_head, slot_construct, h.len, if_neg e1]
  by_cases e2 : s.count = 0
  · have e3 : (if s.tail + 1 = S then 0 else s.tail + 1) < 2 * S := by split_ifs <;> omega
    rw [if_pos e2, e2]
    simp only [Nat.add_zero, mod_wrap e3]
    split_ifs <;> first | rfl | omega
  · have e3 : s.head + s.count < 2 * S := by omega
    simp only [if_neg e2, mod_wrap e3]
    have := h5 (by omega)
    split_ifs <;> first | rfl | omega

theorem get_push_full (hS : 0 < S) {s : CircularBuffer T S} (h : Inv s) (v : T)
    (hc : s.count = S) {i : Nat} (hi : i + 1 < S) :
    get (push s v).2 i = get s (i + 1) := by
  have h1 := h.head_lt
  have h2 := h.tail_lt
  have h5 := h.tail_cases (by omega)
  have e3 : (if s.head + 1 = S then 0 else s.head + 1) + i < 2 * S := by split_ifs <;> omega
  have e4 : s.head + (i + 1) < 2 * S := by omega
  simp only [get, push_buffer, push_head, slot_construct, h.len, if_pos hc, mod_wrap e3,
    mod_wrap e4]
  split_ifs <;> first | rfl | omega | (congr 1; omega)

theorem get_push_full_last (hS : 0 < S) {s : CircularBuffer T S} (h : Inv s) (v : T)
    (hc : s.count = S) :
    get (push s v).2 (S - 1) = some v := by
  have h1 := h.head_lt
  have h2 := h.tail_lt
  have h5 := h.tail_cases (by omega)
  have e3 : (if s.head + 1 = S then 0 else s.head + 1) + (S - 1) < 2 * S := by
    split_ifs <;> omega
  simp only [get, push_buffer, push_head, slot_construct, h.len, if_pos hc, mod_wrap e3]
  split_ifs <;> first | rfl | omega

theorem get_unshift_zero (hS : 0 < S) {s : CircularBuffer T S} (h : Inv s) (v : T) :
    get (unshift s v).2 0 = some v := by
  have h1 := h.head_lt
  have e3 : (if s.head = 0 then S else s.head) - 1 + 0 < 2 * S := by split_ifs <;> omega
  simp only [get, unshift_buffer, unshift_head, slot_construct, h.len, mod_wrap e3]
  split_ifs <;> first | rfl | omega

theorem get_unshift_succ (hS : 0 < S) {s : CircularBuffer T S} (h : Inv s) (v : T)
    {i : Nat} (hi : i + 1 < S) :
    get (unshift s v).2 (i + 1) = get s i := by
  have h1 := h.head_lt
  have e3 : (if s.head = 0 then S else s.head) - 1 + (i + 1) < 2 * S := by split_ifs <;> omega
  have e4 : s.head + i < 2 * S := by omega
  simp only [get, unshift_buffer, unshift_head, slot_construct, h.len, mod_wrap e3, mod_wrap e4]
  split_ifs <;> first | rfl | omega | (congr 1; omega)

end CircularBuffer

namespace CircularBuffer

variable {T : Type} {S : Nat}

/-! ## Logical contents -/

theorem length_contents (s : CircularBuffer T S) : (contents s).length = s.count := by
  simp [contents, size]

theorem get_zero {s : CircularBuffer T S} (h : Inv s) : get s 0 = first s := by
  simp only [get, first, Nat.add_zero, Nat.mod_eq_of_lt h.head_lt]

theorem get_count_pred {s : CircularBuffer T S} (h : Inv s) (hc : 0 < s.count) :
    get s (s.count - 1) = last s := by
  have e : s.head + (s.count - 1) = s.head + s.count - 1 := by omega
  simp only [get, last, e, ← h.tail_eq hc]

theorem last_push (hS : 0 < S) {s : CircularBuffer T S} (h : Inv s) (v : T) :
    last (push s v).2 = some v := by
  have h2 := h.tail_lt
  simp only [last, push_buffer, push_tail, slot_construct, h.len]
  rw [if_pos ⟨trivial, by split_ifs <;> omega⟩]

theorem first_unshift (hS : 0 < S) {s : CircularBuffer T S} (h : Inv s) (v : T) :
    first (unshift s v).2 = some v := by
  have h1 := h.head_lt
  simp only [first, unshift_buffer, unshift_head, slot_construct, h.len]
  rw [if_pos ⟨trivial, by split_ifs <;> omega⟩]

theorem contents_push (hS : 0 < S) {s : CircularBuffer T S} (h : Inv s) (v : T) :
    contents (push s v).2 = pushModel S (contents s) v := by
  have h3 := h.count_le
  unfold pushModel
  rw [length_contents]
  by_cases hc : s.count < S
  · rw [if_pos hc]
    have e1 : ¬ s.count = S := by omega
    simp only [contents, size, push_count, if_neg e1, List.range_succ, List.map_append,
      List.map_cons, List.map_nil, get_push_count hS h v hc]
    congr 1
    apply List.map_congr_left
    intro i hi
    exact get_push_lt hS h v hc (List.mem_range.mp hi)
  · rw [if_neg hc]
    have e1 : s.count = S := by omega
    obtain ⟨n, hn⟩ : ∃ n, S = n + 1 := ⟨S - 1, by omega⟩
    have e2 : get (push s v).2 n = some v := by
      have := get_push_full_last hS h v e1
      rwa [show S - 1 = n by omega] at this
    have r1 : List.range S = List.range n ++ [n] := by rw [hn]; exact List.range_succ n
    have r2 : List.range S = 0 :: List.map Nat.succ (List.range n) := by
      rw [hn]; exact List.range_succ_eq_map n
    simp only [contents, size, push_count, if_pos e1]
    rw [e1]
    conv_lhs => rw [r1, List.map_append, List.map_cons, List.map_nil, e2]
    conv_rhs => rw [r2, List.map_cons, List.tail_cons, List.map_map]
    congr 1
    apply List.map_congr_left
    intro i hi
    exact get_push_full hS h v e1 (by have := List.mem_range.mp hi; omega)

theorem contents_unshift (hS : 0 < S) {s : CircularBuffer T S} (h : Inv s) (v : T) :
    contents (unshift s v).2 = unshiftModel S (contents s) v := by
  have h3 := h.count_le
  unfold unshiftModel
  rw [length_contents]
  by_cases hc : s.count < S
  · rw [if_pos hc]
    have e1 : ¬ s.count = S := by omega
    simp only [contents, size, unshift_count, if_neg e1]
    rw [List.range_succ_eq_map, List.map_cons, get_unshift_zero hS h v, List.map_map]
    congr 1
    apply List.map_congr_left
    intro i hi
    exact get_unshift_succ hS h v (by have := List.mem_range.mp hi; omega)
  · rw [if_neg hc]
    have e1 : s.count = S := by omega
    obtain ⟨n, hn⟩ : ∃ n, S = n + 1 := ⟨S - 1, by omega⟩
    have r1 : List.range S = List.range n ++ [n] := by rw [hn]; exact List.range_succ n
    have r2 : List.range S = 0 :: List.map Nat.succ (List.range n) := by
      rw [hn]; exact List.range_succ_eq_map n
    simp only [contents, size, unshift_count, if_pos e1]
    rw [e1]
    conv_lhs => rw [r2, List.map_cons, get_unshift_zero hS h v, List.map_map]
    conv_rhs => rw [r1, List.map_append, List.map_cons, List.map_nil, List.dropLast_concat]
    congr 1
    apply List.map_congr_left
    intro i hi
    exact get_unshift_succ hS h v (by have := List.mem_range.mp hi; omega)

end CircularBuffer

namespace CircularBuffer

variable {T : Type} {S : Nat}

/-! ## Sequences of `push` and `unshift` calls -/

theorem inv_pushAll (hS : 0 < S) (vs : List T) :
    ∀ {s : CircularBuffer T S}, Inv s → Inv (pushAll s vs) := by
  induction vs with
  | nil => intro s h; exact h
  | cons v vs ih => intro s h; exact ih (inv_push hS h v)

theorem inv_unshiftAll (hS : 0 < S) (vs : List T) :
    ∀ {s : CircularBuffer T S}, Inv s → Inv (unshiftAll s vs) := by
  induction vs with
  | nil => intro s h; exact h
  | cons v vs ih => intro s h; exact ih (inv_unshift hS h v)

theorem contents_pushAll (hS : 0 < S) (vs : List T) :
    ∀ {s : CircularBuffer T S}, Inv s →
      contents (pushAll s vs) = vs.foldl (pushModel S) (contents s) := by
  induction vs with
  | nil => intro s _; rfl
  | cons v vs ih =>
    intro s h
    simp only [pushAll, List.foldl_cons] at ih ⊢
    rw [ih (inv_push hS h v), contents_push hS h v]

theorem contents_unshiftAll (hS : 0 < S) (vs : List T) :
    ∀ {s : CircularBuffer T S}, Inv s →
      contents (unshiftAll s vs) = vs.foldl (unshiftModel S) (contents s) := by
  induction vs with
  | nil => intro s _; rfl
  | cons v vs ih =>
    intro s h
    simp only [unshiftAll, List.foldl_cons] at ih ⊢
    rw [ih (inv_unshift hS h v), contents_unshift hS h v]

theorem length_pushModel (hS : 0 < S) (L : List (Option T)) (v : T) (hL : L.length ≤ S) :
    (pushModel S L v).length ≤ S := by
  unfold pushModel
  split_ifs <;> simp <;> omega

theorem foldl_pushModel (hS : 0 < S) (vs : List T) :
    ∀ L : List (Option T), L.length ≤ S →
      vs.foldl (pushModel S) L = (L ++ vs.map some).drop (L.length + vs.length - S) := by
  induction vs with
  | nil =>
    intro L hL
    simp [Nat.sub_eq_zero_of_le hL]
  | cons v vs ih =>
    intro L hL
    rw [List.foldl_cons, ih _ (length_pushModel hS L v hL)]
    unfold pushModel
    by_cases hc : L.length < S
    · rw [if_pos hc]
      simp only [List.length_append, List.length_cons, List.length_nil, List.map_cons,
        List.append_assoc, List.singleton_append]
      congr 1
      omega
    · rw [if_neg hc]
      cases L with
      | nil => simp only [List.length_nil] at hc; omega
      | cons a L =>
        simp only [List.tail_cons, List.length_append, List.length_cons, List.length_nil,
          List.map_cons, List.append_assoc, List.singleton_append, List.cons_append,
          List.nil_append, Nat.zero_add, Nat.add_zero] at hL hc ⊢
        have e : L.length + 1 + (vs.length + 1) - S = (L.length + 1 + vs.length - S) + 1 := by
          omega
        rw [e, List.drop_succ_cons]

theorem unshiftModel_reverse (L : List (Option T)) (v : T) :
    unshiftModel S L.reverse v = (pushModel S L v).reverse := by
  unfold unshiftModel pushModel
  rw [List.length_reverse]
  split_ifs
  · simp
  · cases L with
    | nil => simp
    | cons a L => simp

theorem foldl_unshiftModel (vs : List T) :
    ∀ L : List (Option T),
      vs.foldl (unshiftModel S) L.reverse = (vs.foldl (pushModel S) L).reverse := by
  induction vs with
  | nil => intro L; rfl
  | cons v vs ih =>
    intro L
    rw [List.foldl_cons, List.foldl_cons, unshiftModel_reverse, ih]

theorem contents_new : contents (new T S) = [] := by
  simp [contents, size, new]

theorem contents_pushAll_new (hS : 0 < S) (vs : List T) :
    contents (pushAll (new T S) vs) = (vs.drop (vs.length - S)).map some := by
  rw [contents_pushAll hS vs (inv_new hS), contents_new, foldl_pushModel hS vs [] (by simp)]
  simp [List.map_drop]

theorem get_of_contents {s : CircularBuffer T S} {L : List T}
    (h : contents s = L.map some) {i : Nat} (hi : i < s.count) : get s i = L[i]? := by
  have e : (contents s)[i]? = some (get s i) := by
    simp [contents, size, hi]
  rw [h, List.getElem?_map] at e
  cases hL : L[i]? with
  | none => rw [hL] at e; simp at e
  | some a => rw [hL] at e; simp at e; rw [e]

theorem count_pushAll (vs : List T) :
    ∀ s : CircularBuffer T S, s.count + vs.length ≤ S →
      (pushAll s vs).count = s.count + vs.length := by
  induction vs with
  | nil => intro s _; rfl
  | cons v vs ih =>
    intro s h
    simp only [List.length_cons] at h
    have e : ¬ s.count = S := by omega
    simp only [pushAll, List.foldl_cons] at ih ⊢
    rw [ih _ (by rw [push_count, if_neg e]; omega), push_count, if_neg e, List.length_cons]
    omega

theorem pushResults_true (vs : List T) :
    ∀ s : CircularBuffer T S, s.count + vs.length ≤ S →
      pushResults s vs = List.replicate vs.length true := by
  induction vs with
  | nil => intro s _; rfl
  | cons v vs ih =>
    intro s h
    simp only [List.length_cons] at h
    have e : ¬ s.count = S := by omega
    simp only [pushResults, List.length_cons, List.replicate_succ]
    rw [ih _ (by rw [push_count, if_neg e]; omega), push_fst]
    simp [e]

end CircularBuffer

namespace CircularBuffer

variable {T : Type} {S : Nat}

/-! ## `shift` and `pop` on the logical contents -/

theorem get_shift [Inhabited T] {s : CircularBuffer T S} (h : Inv s)
    {i : Nat} (hi : i + 1 < s.count) :
    get (shift s).2 i = get s (i + 1) := by
  have h1 := h.head_lt
  have h3 := h.count_le
  have e3 : (if s.head + 1 ≥ S then 0 else s.head + 1) + i < 2 * S := by split_ifs <;> omega
  have e4 : s.head + (i + 1) < 2 * S := by omega
  rw [shift_of_pos s (by omega)]
  simp only [get, slot_destroy, h.len, mod_wrap e3, mod_wrap e4]
  split_ifs <;> first | rfl | omega | (congr 1; omega)

theorem get_pop [Inhabited T] {s : CircularBuffer T S} (h : Inv s)
    {i : Nat} (hi : i + 1 < s.count) :
    get (pop s).2 i = get s i := by
  have h1 := h.head_lt
  have h2 := h.tail_lt
  have h3 := h.count_le
  have h5 := h.tail_cases (by omega)
  have e4 : s.head + i < 2 * S := by omega
  rw [pop_of_pos s (by omega)]
  simp only [get, slot_destroy, h.len, mod_wrap e4]
  split_ifs <;> first | rfl | omega

theorem shift_fst [Inhabited T] {s : CircularBuffer T S} (hc : 0 < s.count) :
    (shift s).1 = first s := by
  rw [shift_of_pos s hc]; rfl

theorem pop_fst [Inhabited T] {s : CircularBuffer T S} (hc : 0 < s.count) :
    (pop s).1 = last s := by
  rw [pop_of_pos s hc]; rfl

theorem shift_count [Inhabited T] (s : CircularBuffer T S) :
    (shift s).2.count = s.count - 1 := by
  by_cases hc : s.count = 0
  · rw [shift_of_zero s hc, hc]
  · rw [shift_of_pos s (by omega)]

theorem pop_count [Inhabited T] (s : CircularBuffer T S) :
    (pop s).2.count = s.count - 1 := by
  by_cases hc : s.count = 0
  · rw [pop_of_zero s hc, hc]
  · rw [pop_of_pos s (by omega)]

theorem contents_shift [Inhabited T] {s : CircularBuffer T S} (h : Inv s) :
    contents (shift s).2 = (contents s).tail := by
  by_cases hc : s.count = 0
  · rw [shift_of_zero s hc]
    simp [contents, size, hc]
  · obtain ⟨n, hn⟩ : ∃ n, s.count = n + 1 := ⟨s.count - 1, by omega⟩
    simp only [contents, size, shift_count]
    rw [hn, Nat.add_sub_cancel, List.range_succ_eq_map, List.map_cons, List.tail_cons,
      List.map_map]
    apply List.map_congr_left
    intro i hi
    exact get_shift h (by have := List.mem_range.mp hi; omega)

theorem contents_pop [Inhabited T] {s : CircularBuffer T S} (h : Inv s) :
    contents (pop s).2 = (contents s).dropLast := by
  by_cases hc : s.count = 0
  · rw [pop_of_zero s hc]
    simp [contents, size, hc]
  · obtain ⟨n, hn⟩ : ∃ n, s.count = n + 1 := ⟨s.count - 1, by omega⟩
    simp only [contents, size, pop_count]
    rw [hn, Nat.add_sub_cancel, List.range_succ, List.map_append, List.map_cons, List.map_nil,
      List.dropLast_concat]
    apply List.map_congr_left
    intro i hi
    exact get_pop h (by have := List.mem_range.mp hi; omega)

theorem head?_contents {s : CircularBuffer T S} (h : Inv s) (hc : 0 < s.count) :
    (contents s).head? = some (first s) := by
  obtain ⟨n, hn⟩ : ∃ n, s.count = n + 1 := ⟨s.count - 1, by omega⟩
  simp only [contents, size]
  rw [hn, List.range_succ_eq_map, List.map_cons, List.head?_cons, get_zero h]

theorem getLast?_contents {s : CircularBuffer T S} (h : Inv s) (hc : 0 < s.count) :
    (contents s).getLast? = some (last s) := by
  obtain ⟨n, hn⟩ : ∃ n, s.count = n + 1 := ⟨s.count - 1, by omega⟩
  have e := get_count_pred h hc
  rw [hn, Nat.add_sub_cancel] at e
  simp only [contents, size]
  rw [hn, List.range_succ, List.map_append, List.map_cons, List.map_nil,
    List.getLast?_append, List.getLast?_singleton, e]
  rfl

end CircularBuffer

namespace CircularBuffer

variable {T : Type} {S : Nat}

/-! ## Liveness of the slots -/

theorem inLiveRange_iff {s : CircularBuffer T S} (hh : s.head < S) (hc : s.count ≤ S)
    {p : Nat} (hp : p < S) :
    inLiveRange s p ↔ (s.head ≤ p ∧ p < s.head + s.count) ∨ p + S < s.head + s.count := by
  constructor
  · rintro ⟨i, hi, rfl⟩
    rw [mod_wrap (by omega)] at hp ⊢
    split_ifs <;> omega
  · intro h
    rcases h with h | h
    · refine ⟨p - s.head, by omega, ?_⟩
      rw [mod_wrap (by omega)]
      split_ifs <;> omega
    · refine ⟨p + S - s.head, by omega, ?_⟩
      rw [mod_wrap (by omega)]
      split_ifs <;> omega

theorem liveInv_iff {s : CircularBuffer T S} (hh : s.head < S) (hc : s.count ≤ S) :
    LiveInv s ↔ ∀ p, p < S → ((slot s.buffer p).isSome = true ↔
      ((s.head ≤ p ∧ p < s.head + s.count) ∨ p + S < s.head + s.count)) := by
  unfold LiveInv
  constructor
  · intro h p hp
    rw [← inLiveRange_iff hh hc hp]
    exact h p hp
  · intro h p hp
    rw [inLiveRange_iff hh hc hp]
    exact h p hp

theorem slot_new (p : Nat) : slot (new T S).buffer p = none := by
  simp only [slot, new, List.getD_eq_getElem?_getD]
  by_cases hp : p < S
  · simp [List.getElem?_replicate, hp]
  · simp [List.getElem?_replicate, hp]

theorem live_new (hS : 0 < S) : LiveInv (new T S) := by
  rw [liveInv_iff (inv_new hS).head_lt (inv_new hS).count_le]
  intro p hp
  rw [slot_new]
  simp only [new]
  constructor
  · intro h; simp at h
  · intro h; omega

theorem live_push (hS : 0 < S) {s : CircularBuffer T S} (h : Inv s) (hl : LiveInv s) (v : T) :
    LiveInv (push s v).2 := by
  have hn := inv_push hS h v
  have h1 := h.head_lt
  have h2 := h.tail_lt
  have h3 := h.count_le
  have h5 := h.tail_cases
  rw [liveInv_iff h1 h3] at hl
  rw [liveInv_iff hn.head_lt hn.count_le]
  intro p hp
  have old := hl p hp
  simp only [push_buffer, push_head, push_count, slot_construct, h.len]
  by_cases hA : (slot s.buffer p).isSome = true
  · have o := old.mp hA
    split_ifs <;> simp only [hA, Option.isSome_some, Option.isSome_none, true_iff, false_iff,
      Bool.false_eq_true] <;> omega
  · have o := mt old.mpr hA
    split_ifs <;> simp only [hA, Option.isSome_some, Option.isSome_none, true_iff, false_iff,
      Bool.false_eq_true] <;> omega

theorem live_unshift (hS : 0 < S) {s : CircularBuffer T S} (h : Inv s) (hl : LiveInv s)
    (v : T) : LiveInv (unshift s v).2 := by
  have hn := inv_unshift hS h v
  have h1 := h.head_lt
  have h2 := h.tail_lt
  have h3 := h.count_le
  have h5 := h.tail_cases
  rw [liveInv_iff h1 h3] at hl
  rw [liveInv_iff hn.head_lt hn.count_le]
  intro p hp
  have old := hl p hp
  simp only [unshift_buffer, unshift_head, unshift_count, slot_construct, h.len]
  by_cases hA : (slot s.buffer p).isSome = true
  · have o := old.mp hA
    split_ifs <;> simp only [hA, Option.isSome_some, Option.isSome_none, true_iff, false_iff,
      Bool.false_eq_true] <;> omega
  · have o := mt old.mpr hA
    split_ifs <;> simp only [hA, Option.isSome_some, Option.isSome_none, true_iff, false_iff,
      Bool.false_eq_true] <;> omega

theorem live_shift [Inhabited T] (hS : 0 < S) {s : CircularBuffer T S} (h : Inv s)
    (hl : LiveInv s) : LiveInv (shift s).2 := by
  by_cases hc : s.count = 0
  · rw [shift_of_zero s hc]; exact hl
  · have hn := inv_shift hS h
    have h1 := h.head_lt
    have h3 := h.count_le
    rw [liveInv_iff h1 h3] at hl
    rw [liveInv_iff hn.head_lt hn.count_le]
    rw [shift_of_pos s (by omega)]
    intro p hp
    have old := hl p hp
    simp only [slot_destroy, h.len]
    by_cases hA : (slot s.buffer p).isSome = true
    · have o := old.mp hA
      split_ifs <;> simp only [hA, Option.isSome_some, Option.isSome_none, true_iff, false_iff,
      Bool.false_eq_true] <;> omega
    · have o := mt old.mpr hA
      split_ifs <;> simp only [hA, Option.isSome_some, Option.isSome_none, true_iff, false_iff,
      Bool.false_eq_true] <;> omega

theorem live_pop [Inhabited T] (hS : 0 < S) {s : CircularBuffer T S} (h : Inv s)
    (hl : LiveInv s) : LiveInv (pop s).2 := by
  by_cases hc : s.count = 0
  · rw [pop_of_zero s hc]; exact hl
  · have hn := inv_pop hS h
    have h1 := h.head_lt
    have h2 := h.tail_lt
    have h3 := h.count_le
    have h5 := h.tail_cases (by omega)
    rw [liveInv_iff h1 h3] at hl
    rw [liveInv_iff hn.head_lt hn.count_le]
    rw [pop_of_pos s (by omega)]
    intro p hp
    have old := hl p hp
    simp only [slot_destroy, h.len]
    by_cases hA : (slot s.buffer p).isSome = true
    · have o := old.mp hA
      split_ifs <;> simp only [hA, Option.isSome_some, Option.isSome_none, true_iff, false_iff,
      Bool.false_eq_true] <;> omega
    · have o := mt old.mpr hA
      split_ifs <;> simp only [hA, Option.isSome_some, Option.isSome_none, true_iff, false_iff,
      Bool.false_eq_true] <;> omega

end CircularBuffer

namespace CircularBuffer

variable {T : Type} {S : Nat}

/-! ## `clear` and the lifetime checks -/

theorem slot_clearLoop (n : Nat) :
    ∀ (buf : List (Option T)) (scan : Nat), buf.length = S → scan < S → n ≤ S →
      ∀ p, p < S → slot (clearLoop S buf scan n) p =
        if (scan ≤ p ∧ p < scan + n) ∨ p + S < scan + n then none else slot buf p := by
  induction n with
  | zero =>
    intro buf scan _ _ _ p _
    rw [if_neg (by omega)]
    rfl
  | succ n ih =>
    intro buf scan hlen hscan hn p hp
    have hscan2 : (if scan + 1 = S then 0 else scan + 1) < S := by split_ifs <;> omega
    simp only [clearLoop]
    rw [ih (destroy buf scan) _ (by rw [length_destroy, hlen]) hscan2 (by omega) p hp,
      slot_destroy, hlen]
    split_ifs <;> first | rfl | omega

theorem live_clear (hS : 0 < S) {s : CircularBuffer T S} (h : Inv s) (hl : LiveInv s) :
    LiveInv (clear s) := by
  have hn := inv_clear hS h
  have h1 := h.head_lt
  have h3 := h.count_le
  rw [liveInv_iff h1 h3] at hl
  rw [liveInv_iff hn.head_lt hn.count_le]
  intro p hp
  have old := hl p hp
  simp only [clear, slot_clearLoop s.count s.buffer s.head h.len h1 h3 p hp]
  by_cases hA : (slot s.buffer p).isSome = true
  · rw [if_pos (old.mp hA)]
    simp only [Option.isSome_none, Bool.false_eq_true, false_iff]
    omega
  · rw [if_neg (mt old.mpr hA)]
    simp only [hA, Bool.false_eq_true, false_iff]
    omega

theorem clearLoopOk_of_live (n : Nat) :
    ∀ (buf : List (Option T)) (scan : Nat), buf.length = S → scan < S → n ≤ S →
      (∀ p, p < S → ((scan ≤ p ∧ p < scan + n) ∨ p + S < scan + n) →
        (slot buf p).isSome = true) →
      clearLoopOk S buf scan n = true := by
  induction n with
  | zero => intro _ _ _ _ _ _; rfl
  | succ n ih =>
    intro buf scan hlen hscan hn hlive
    have hscan2 : (if scan + 1 = S then 0 else scan + 1) < S := by split_ifs <;> omega
    simp only [clearLoopOk, Bool.and_eq_true]
    refine ⟨hlive scan hscan (by omega), ?_⟩
    apply ih (destroy buf scan) _ (by rw [length_destroy, hlen]) hscan2 (by omega)
    intro p hp hr
    by_cases hw : scan + 1 = S
    · simp only [if_pos hw] at hr
      rw [slot_destroy, hlen, if_neg (by omega)]
      exact hlive p hp (by omega)
    · simp only [if_neg hw] at hr
      rw [slot_destroy, hlen, if_neg (by omega)]
      exact hlive p hp (by omega)

theorem pushOk_of_live (hS : 0 < S) {s : CircularBuffer T S} (h : Inv s) (hl : LiveInv s) :
    pushOk s = true := by
  have h1 := h.head_lt
  have h2 := h.tail_lt
  have h3 := h.count_le
  have h5 := h.tail_cases
  rw [liveInv_iff h1 h3] at hl
  have ht : (if s.tail + 1 = S then 0 else s.tail + 1) < S := by split_ifs <;> omega
  have old := hl _ ht
  simp only [pushOk, constructOk, destroyOk, Bool.and_eq_true, decide_eq_true_eq]
  by_cases hc : s.count = S
  · simp only [if_pos hc, length_destroy, h.len, slot_destroy]
    refine ⟨old.mpr (by split_ifs <;> omega), ht, ?_⟩
    rw [if_pos ⟨trivial, ht⟩]
    rfl
  · simp only [if_neg hc, h.len, true_and]
    refine ⟨ht, ?_⟩
    have : ¬ (slot s.buffer (if s.tail + 1 = S then 0 else s.tail + 1)).isSome = true :=
      mt old.mp (by split_ifs <;> omega)
    simpa [Option.isNone_iff_eq_none, Option.not_isSome_iff_eq_none] using this

theorem unshiftOk_of_live (hS : 0 < S) {s : CircularBuffer T S} (h : Inv s)
    (hl : LiveInv s) : unshiftOk s = true := by
  have h1 := h.head_lt
  have h2 := h.tail_lt
  have h3 := h.count_le
  have h5 := h.tail_cases
  rw [liveInv_iff h1 h3] at hl
  have ht : (if s.head = 0 then S else s.head) - 1 < S := by split_ifs <;> omega
  have old := hl _ ht
  simp only [unshiftOk, constructOk, destroyOk, Bool.and_eq_true, decide_eq_true_eq]
  by_cases hc : s.count = S
  · simp only [if_pos hc, length_destroy, h.len, slot_destroy]
    refine ⟨old.mpr (by split_ifs <;> omega), ht, ?_⟩
    rw [if_pos ⟨trivial, ht⟩]
    rfl
  · simp only [if_neg hc, h.len, true_and]
    refine ⟨ht, ?_⟩
    have : ¬ (slot s.buffer ((if s.head = 0 then S else s.head) - 1)).isSome = true :=
      mt old.mp (by split_ifs <;> omega)
    simpa [Option.isNone_iff_eq_none, Option.not_isSome_iff_eq_none] using this

theorem shiftOk_of_live {s : CircularBuffer T S} (h : Inv s) (hl : LiveInv s) :
    shiftOk s = true := by
  have h1 := h.head_lt
  have h3 := h.count_le
  rw [liveInv_iff h1 h3] at hl
  unfold shiftOk
  split_ifs with hc
  · rfl
  · exact (hl _ h1).mpr (by omega)

theorem popOk_of_live {s : CircularBuffer T S} (h : Inv s) (hl : LiveInv s) :
    popOk s = true := by
  have h1 := h.head_lt
  have h2 := h.tail_lt
  have h3 := h.count_le
  rw [liveInv_iff h1 h3] at hl
  unfold popOk
  split_ifs with hc
  · rfl
  · have h5 := h.tail_cases (by omega)
    exact (hl _ h2).mpr (by omega)

theorem clearOk_of_live {s : CircularBuffer T S} (h : Inv s) (hl : LiveInv s) :
    clearOk s = true := by
  have h1 := h.head_lt
  have h3 := h.count_le
  rw [liveInv_iff h1 h3] at hl
  exact clearLoopOk_of_live s.count s.buffer s.head h.len h1 h3
    (fun p hp hr => (hl p hp).mpr hr)

theorem stepOk_of_live (hS : 0 < S) {s : CircularBuffer T S} (h : Inv s) (hl : LiveInv s)
    (op : Op T) : stepOk s op = true := by
  cases op with
  | push v => exact pushOk_of_live hS h hl
  | unshift v => exact unshiftOk_of_live hS h hl
  | shift => exact shiftOk_of_live h hl
  | pop => exact popOk_of_live h hl
  | clear => exact clearOk_of_live h hl

theorem live_step [Inhabited T] (hS : 0 < S) {s : CircularBuffer T S} (h : Inv s)
    (hl : LiveInv s) (op : Op T) : LiveInv (step s op) := by
  cases op with
  | push v => exact live_push hS h hl v
  | unshift v => exact live_unshift hS h hl v
  | shift => exact live_shift hS h hl
  | pop => exact live_pop hS h hl
  | clear => exact live_clear hS h hl

theorem live_run [Inhabited T] (hS : 0 < S) (ops : List (Op T)) :
    ∀ {s : CircularBuffer T S}, Inv s → LiveInv s → LiveInv (run s ops) := by
  induction ops with
  | nil => intro s _ hl; exact hl
  | cons op ops ih => intro s h hl; exact ih (inv_step hS h op) (live_step hS h hl op)

theorem live_of_reachable [Inhabited T] (hS : 0 < S) {s : CircularBuffer T S}
    (h : Reachable s) : LiveInv s := by
  obtain ⟨ops, rfl⟩ := h
  exact live_run hS ops (inv_new hS) (live_new hS)

end CircularBuffer

namespace CircularBuffer

variable {T : Type} {S : Nat}

/-! ## Counting the live slots -/

theorem slotIndex_inj {s : CircularBuffer T S} (hh : s.head < S) (hc : s.count ≤ S)
    {i j : Nat} (hi : i < s.count) (hj : j < s.count)
    (hij : (s.head + i) % S = (s.head + j) % S) : i = j := by
  rw [mod_wrap (by omega), mod_wrap (by omega)] at hij
  split_ifs at hij <;> omega

theorem liveCount_eq {s : CircularBuffer T S} (h : Inv s) (hl : LiveInv s) :
    liveCount s = s.count := by
  have h1 := h.head_lt
  have h3 := h.count_le
  have hperm : List.Perm ((List.range S).filter (fun p => (slot s.buffer p).isSome))
      ((List.range s.count).map (fun i => (s.head + i) % S)) := by
    rw [List.perm_ext_iff_of_nodup ((List.nodup_range S).filter _)
      (List.Nodup.map_on (fun i hi j hj hij =>
        slotIndex_inj h1 h3 (List.mem_range.mp hi) (List.mem_range.mp hj) hij)
        (List.nodup_range s.count))]
    intro p
    simp only [List.mem_filter, List.mem_range, List.mem_map]
    constructor
    · rintro ⟨hp, hsome⟩
      obtain ⟨i, hi, rfl⟩ := (hl p hp).mp hsome
      exact ⟨i, hi, rfl⟩
    · rintro ⟨i, hi, rfl⟩
      have hp : (s.head + i) % S < S := Nat.mod_lt _ (by omega)
      exact ⟨hp, (hl _ hp).mpr ⟨i, hi, rfl⟩⟩
  unfold liveCount
  rw [hperm.length_eq, List.length_map, List.length_range]

/-! ## Successive `shift` and `pop` calls -/

theorem shiftN_contents [Inhabited T] (hS : 0 < S) (n : Nat) :
    ∀ {s : CircularBuffer T S}, Inv s → s.count = n →
      (shiftN n s).1 = contents s ∧ (shiftN n s).2.count = 0 := by
  induction n with
  | zero =>
    intro s _ hc
    refine ⟨?_, hc⟩
    simp [shiftN, contents, size, hc]
  | succ n ih =>
    intro s h hc
    have hi := ih (inv_shift hS h) (by rw [shift_count, hc, Nat.add_sub_cancel])
    simp only [shiftN]
    refine ⟨?_, hi.2⟩
    rw [hi.1, contents_shift h, shift_fst (by omega)]
    have hh := head?_contents h (by omega)
    cases hL : contents s with
    | nil => rw [hL] at hh; simp at hh
    | cons a L => rw [hL] at hh; simp at hh; rw [List.tail_cons, hh]

theorem popN_contents [Inhabited T] (hS : 0 < S) (n : Nat) :
    ∀ {s : CircularBuffer T S}, Inv s → s.count = n →
      (popN n s).1 = (contents s).reverse ∧ (popN n s).2.count = 0 := by
  induction n with
  | zero =>
    intro s _ hc
    refine ⟨?_, hc⟩
    simp [popN, contents, size, hc]
  | succ n ih =>
    intro s h hc
    have hi := ih (inv_pop hS h) (by rw [pop_count, hc, Nat.add_sub_cancel])
    simp only [popN]
    refine ⟨?_, hi.2⟩
    rw [hi.1, contents_pop h, pop_fst (by omega)]
    have hh := getLast?_contents h (by omega)
    have e : (contents s).dropLast ++ [last s] = contents s :=
      List.dropLast_append_getLast? _ (by simp [hh])
    conv_rhs => rw [← e]
    simp

end CircularBuffer

namespace CircularBuffer

variable {T : Type} {S : Nat}

/-! ## Cursor invariant and slot selection -/

theorem cursorInv_iff (s : CircularBuffer T S) :
    CursorInv s ↔ s.head < S ∧ s.tail < S ∧ s.count ≤ S ∧
      (0 < s.count → (s.head + s.count ≤ S ∧ s.tail + 1 = s.head + s.count) ∨
        (S < s.head + s.count ∧ s.tail + 1 + S = s.head + s.count)) := by
  unfold CursorInv
  constructor
  · rintro ⟨h1, h2, h3, h4⟩
    refine ⟨h1, h2, h3, fun hc => ?_⟩
    have e := h4 hc
    rw [mod_wrap (by omega)] at e
    split_ifs at e <;> omega
  · rintro ⟨h1, h2, h3, h4⟩
    refine ⟨h1, h2, h3, fun hc => ?_⟩
    have e := h4 hc
    rw [mod_wrap (by omega)]
    split_ifs <;> omega

theorem cursorInv_of_inv {s : CircularBuffer T S} (h : Inv s) : CursorInv s :=
  ⟨h.head_lt, h.tail_lt, h.count_le, h.tail_eq⟩

theorem cursorInv_push {s : CircularBuffer T S} (h : CursorInv s) (v : T) :
    CursorInv (push s v).2 := by
  rw [cursorInv_iff] at h ⊢
  obtain ⟨h1, h2, h3, h5⟩ := h
  rw [push_head, push_tail, push_count]
  refine ⟨?_, ?_, ?_, fun _ => ?_⟩ <;> split_ifs <;> omega

theorem cursorInv_unshift {s : CircularBuffer T S} (h : CursorInv s) (v : T) :
    CursorInv (unshift s v).2 := by
  rw [cursorInv_iff] at h ⊢
  obtain ⟨h1, h2, h3, h5⟩ := h
  rw [unshift_head, unshift_tail, unshift_count]
  refine ⟨?_, ?_, ?_, fun _ => ?_⟩ <;> split_ifs <;> omega

theorem cursorInv_shift [Inhabited T] {s : CircularBuffer T S} (h : CursorInv s) :
    CursorInv (shift s).2 := by
  by_cases hc : s.count = 0
  · rw [shift_of_zero s hc]; exact h
  · rw [cursorInv_iff] at h ⊢
    obtain ⟨h1, h2, h3, h5⟩ := h
    rw [shift_of_pos s (by omega)]
    simp only
    refine ⟨?_, ?_, ?_, fun _ => ?_⟩ <;> first | omega | (split_ifs <;> omega)

theorem cursorInv_pop [Inhabited T] {s : CircularBuffer T S} (h : CursorInv s) :
    CursorInv (pop s).2 := by
  by_cases hc : s.count = 0
  · rw [pop_of_zero s hc]; exact h
  · rw [cursorInv_iff] at h ⊢
    obtain ⟨h1, h2, h3, h5⟩ := h
    rw [pop_of_pos s (by omega)]
    simp only
    refine ⟨?_, ?_, ?_, fun _ => ?_⟩ <;> first | omega | (split_ifs <;> omega)

theorem cursorInv_clear (hS : 0 < S) (s : CircularBuffer T S) : CursorInv (clear s) :=
  ⟨hS, hS, Nat.zero_le _, fun hpos => absurd hpos (Nat.lt_irrefl 0)⟩

theorem slotIndexW_eq {s : CircularBuffer T S} {w index : Nat}
    (h : s.head + index < 2 ^ w) : slotIndexW w s index = slotIndex s index := by
  unfold slotIndexW slotIndex
  rw [Nat.mod_eq_of_lt h]

theorem slotIndexW_lt (hS : 0 < S) (s : CircularBuffer T S) (w index : Nat) :
    slotIndexW w s index < S :=
  Nat.mod_lt _ hS

theorem contents_pushAll_of_empty (hS : 0 < S) {s : CircularBuffer T S} (h : Inv s)
    (he : s.count = 0) (vs : List T) (hn : vs.length ≤ S) :
    contents (pushAll s vs) = vs.map some := by
  have hc : contents s = [] := by simp [contents, size, he]
  rw [contents_pushAll hS vs h, hc, foldl_pushModel hS vs [] (by simp)]
  simp [Nat.sub_eq_zero_of_le hn]

end CircularBuffer

namespace CircularBuffer

variable {T : Type} {S : Nat}

/-! ## Arguments passed by reference -/

theorem pushArg_val (s : CircularBuffer T S) (v : T) : pushArg s (.val v) = push s v := rfl

theorem unshiftArg_val (s : CircularBuffer T S) (v : T) :
    unshiftArg s (.val v) = unshift s v := rfl

theorem constructFrom_of_read {buf : List (Option T)} {a : Arg T} {x : T}
    (h : a.read buf = some x) (p : Nat) : constructFrom buf p a = construct buf p x := by
  simp only [constructFrom, construct, h]

theorem read_destroy (buf : List (Option T)) {a : Arg T} {p : Nat}
    (h : a ≠ Arg.ref p) : a.read (destroy buf p) = a.read buf := by
  cases a with
  | val v => rfl
  | ref q =>
    have hq : ¬ (p = q ∧ p < buf.length) := fun e => h (by rw [e.1])
    simp only [Arg.read, slot_destroy, if_neg hq]

theorem pushArg_eq_push (s : CircularBuffer T S) (a : Arg T) (x : T)
    (hx : a.read s.buffer = some x)
    (hno : s.count = S → a ≠ Arg.ref (if s.tail + 1 = S then 0 else s.tail + 1)) :
    pushArg s a = push s x := by
  by_cases hc : s.count = S
  · have e := read_destroy s.buffer (hno hc)
    simp only [pushArg, push, if_pos hc, constructFrom_of_read (e.trans hx)]
  · simp only [pushArg, push, if_neg hc, constructFrom_of_read hx]

theorem unshiftArg_eq_unshift (s : CircularBuffer T S) (a : Arg T) (x : T)
    (hx : a.read s.buffer = some x)
    (hno : s.count = S → a ≠ Arg.ref ((if s.head = 0 then S else s.head) - 1)) :
    unshiftArg s a = unshift s x := by
  by_cases hc : s.count = S
  · have e := read_destroy s.buffer (hno hc)
    simp only [unshiftArg, unshift, if_pos hc, constructFrom_of_read (e.trans hx)]
  · simp only [unshiftArg, unshift, if_neg hc, constructFrom_of_read hx]

theorem push_target_of_full {s : CircularBuffer T S} (h : Inv s) (hc : s.count = S) :
    (if s.tail + 1 = S then 0 else s.tail + 1) = s.head := by
  have h1 := h.head_lt
  have h2 := h.tail_lt
  have h5 := h.tail_cases (by omega)
  split_ifs <;> omega

theorem unshift_target_of_full {s : CircularBuffer T S} (h : Inv s) (hc : s.count = S) :
    (if s.head = 0 then S else s.head) - 1 = s.tail := by
  have h1 := h.head_lt
  have h2 := h.tail_lt
  have h5 := h.tail_cases (by omega)
  split_ifs <;> omega

/-- In every reachable state, `push` called with an argument that designates the
object `x` and is not a reference to the element about to be evicted (the one
`first ()` refers to, when the buffer is full) appends `x`: the logical contents
become `L ++ [x]` when not full and `L.tail ++ [x]` when full, and `last ()` is
`x`. -/
theorem pushArg_contents [Inhabited T] (hS : 0 < S) {s : CircularBuffer T S}
    (hr : Reachable s) (a : Arg T) (x : T) (hx : a.read s.buffer = some x)
    (hno : isFull s = true → a ≠ Arg.ref s.head) :
    (isFull s = false → contents (pushArg s a).2 = contents s ++ [some x]) ∧
      (isFull s = true → contents (pushArg s a).2 = (contents s).tail ++ [some x]) ∧
      last (pushArg s a).2 = some x := by
  have hinv := inv_of_reachable hS hr
  have h3 := hinv.count_le
  have e : pushArg s a = push s x := by
    refine pushArg_eq_push s a x hx (fun hc => ?_)
    rw [push_target_of_full hinv hc]
    exact hno (by simp [isFull, hc])
  have hp := contents_push hS hinv x
  unfold pushModel at hp
  rw [length_contents] at hp
  rw [e]
  refine ⟨fun hf => ?_, fun hf => ?_, last_push hS hinv x⟩
  · have : s.count < S := by
      have : s.count ≠ S := by simpa [isFull] using hf
      omega
    rw [hp, if_pos this]
  · have : ¬ s.count < S := by
      have : s.count = S := by simpa [isFull] using hf
      omega
    rw [hp, if_neg this]

/-- In every reachable state, `unshift` called with an argument that designates
the object `x` and is not a reference to the element about to be evicted (the
one `last ()` refers to, when the buffer is full) prepends `x`: the logical
contents become `x :: L` when not full and `x :: L.dropLast` when full, and
`first ()` is `x`. -/
theorem unshiftArg_contents [Inhabited T] (hS : 0 < S) {s : CircularBuffer T S}
    (hr : Reachable s) (a : Arg T) (x : T) (hx : a.read s.buffer = some x)
    (hno : isFull s = true → a ≠ Arg.ref s.tail) :
    (isFull s = false → contents (unshiftArg s a).2 = some x :: contents s) ∧
      (isFull s = true → contents (unshiftArg s a).2 = some x :: (contents s).dropLast) ∧
      first (unshiftArg s a).2 = some x := by
  have hinv := inv_of_reachable hS hr
  have h3 := hinv.count_le
  have e : unshiftArg s a = unshift s x := by
    refine unshiftArg_eq_unshift s a x hx (fun hc => ?_)
    rw [unshift_target_of_full hinv hc]
    exact hno (by simp [isFull, hc])
  have hp := contents_unshift hS hinv x
  unfold unshiftModel at hp
  rw [length_contents] at hp
  rw [e]
  refine ⟨fun hf => ?_, fun hf => ?_, first_unshift hS hinv x⟩
  · have : s.count < S := by
      have : s.count ≠ S := by simpa [isFull] using hf
      omega
    rw [hp, if_pos this]
  · have : ¬ s.count < S := by
      have : s.count = S := by simpa [isFull] using hf
      omega
    rw [hp, if_neg this]

/-- In every reachable full state, `push (first ())` destroys the element that
its argument refers to before it reads it: the slot `last ()` then refers to
holds no constructed object, although `first ()` held one before the call. -/
theorem pushArg_first_of_full [Inhabited T] (hS : 0 < S) {s : CircularBuffer T S}
    (hr : Reachable s) (hf : isFull s = true) :
    (∃ x, first s = some x) ∧ last (pushArg s (.ref s.head)).2 = none := by
  have hinv := inv_of_reachable hS hr
  have hl := live_of_reachable hS hr
  have h1 := hinv.head_lt
  have hc : s.count = S := by simpa [isFull] using hf
  have ht := push_target_of_full hinv hc
  constructor
  · have : (slot s.buffer s.head).isSome = true :=
      ((liveInv_iff h1 hinv.count_le).mp hl _ h1).mpr (by omega)
    exact Option.isSome_iff_exists.mp this
  · have hd : slot (destroy s.buffer s.head) s.head = none := by
      rw [slot_destroy, if_pos ⟨rfl, by rw [hinv.len]; exact h1⟩]
    simp only [last, pushArg, if_pos hc, ht, constructFrom, Arg.read, hd]
    rw [← destroy, slot_destroy, length_destroy, if_pos ⟨rfl, by rw [hinv.len]; exact h1⟩]

/-- In every reachable full state, `unshift (last ())` destroys the element that
its argument refers to before it reads it: the slot `first ()` then refers to
holds no constructed object, although `last ()` held one before the call. -/
theorem unshiftArg_last_of_full [Inhabited T] (hS : 0 < S) {s : CircularBuffer T S}
    (hr : Reachable s) (hf : isFull s = true) :
    (∃ x, last s = some x) ∧ first (unshiftArg s (.ref s.tail)).2 = none := by
  have hinv := inv_of_reachable hS hr
  have hl := live_of_reachable hS hr
  have h1 := hinv.head_lt
  have h2 := hinv.tail_lt
  have hc : s.count = S := by simpa [isFull] using hf
  have h5 := hinv.tail_cases (by omega)
  have ht := unshift_target_of_full hinv hc
  constructor
  · have : (slot s.buffer s.tail).isSome = true :=
      ((liveInv_iff h1 hinv.count_le).mp hl _ h2).mpr (by omega)
    exact Option.isSome_iff_exists.mp this
  · have hd : slot (destroy s.buffer s.tail) s.tail = none := by
      rw [slot_destroy, if_pos ⟨rfl, by rw [hinv.len]; exact h2⟩]
    simp only [first, unshiftArg, if_pos hc, ht, constructFrom, Arg.read, hd]
    rw [← destroy, slot_destroy, length_destroy, if_pos ⟨rfl, by rw [hinv.len]; exact h2⟩]

end CircularBuffer

namespace CircularBuffer

variable {T : Type} {S : Nat}

/-! ## Claims -/

/-- C1: for capacity `S ≥ 1`, `k ≥ 1` and a list `vs` of `S + k` values pushed
in order onto a newly constructed buffer, `size ()` is `S`, the logical contents
`buffer[0 .. S-1]` are the last `S` values of `vs` in push order, `first ()` is
the `(k+1)`-th pushed value and `last ()` is the last pushed value. -/
theorem C1_push_beyond_capacity (hS : 0 < S) (k : Nat) (hk : 1 ≤ k) (vs : List T)
    (hlen : vs.length = S + k) :
    size (pushAll (new T S) vs) = S ∧
      contents (pushAll (new T S) vs) = (vs.drop k).map some ∧
      first (pushAll (new T S) vs) = vs[k]? ∧
      last (pushAll (new T S) vs) = vs.getLast? := by
  have hinv : Inv (pushAll (new T S) vs) := inv_pushAll hS vs (inv_new hS)
  have hcont : contents (pushAll (new T S) vs) = (vs.drop k).map some := by
    rw [contents_pushAll_new hS vs, hlen, Nat.add_sub_cancel_left]
  have hcount : (pushAll (new T S) vs).count = S := by
    rw [← length_contents, hcont, List.length_map, List.length_drop, hlen]
    omega
  refine ⟨hcount, hcont, ?_, ?_⟩
  · rw [← get_zero hinv, get_of_contents hcont (by omega), List.getElem?_drop]
    rfl
  · rw [← get_count_pred hinv (by omega), get_of_contents hcont (by omega),
      List.getElem?_drop, List.getLast?_eq_getElem?, hcount, hlen]
    congr 1
    omega

/-- Instance of C1: capacity 2, three values pushed. -/
theorem C1_push_beyond_capacity_witness :
    size (pushAll (new Nat 2) [10, 20, 30]) = 2 ∧
      contents (pushAll (new Nat 2) [10, 20, 30]) = ([10, 20, 30].drop 1).map some ∧
      first (pushAll (new Nat 2) [10, 20, 30]) = [10, 20, 30][1]? ∧
      last (pushAll (new Nat 2) [10, 20, 30]) = [10, 20, 30].getLast? :=
  C1_push_beyond_capacity (by decide) 1 (by decide) [10, 20, 30] (by decide)

/-- C2: in every state reachable from construction, `push` and `unshift` return
`true` exactly when `count < capacity` before the call, and then `size ()` grows
by one; they return `false` exactly when `count == capacity`, and then `size ()`
stays equal to the capacity. -/
theorem C2_insert_result [Inhabited T] (hS : 0 < S) {s : CircularBuffer T S}
    (hr : Reachable s) (v : T) :
    (((push s v).1 = true ↔ s.count < S) ∧
      ((push s v).1 = true → size (push s v).2 = size s + 1) ∧
      ((push s v).1 = false ↔ s.count = S) ∧
      ((push s v).1 = false → size (push s v).2 = S)) ∧
    (((unshift s v).1 = true ↔ s.count < S) ∧
      ((unshift s v).1 = true → size (unshift s v).2 = size s + 1) ∧
      ((unshift s v).1 = false ↔ s.count = S) ∧
      ((unshift s v).1 = false → size (unshift s v).2 = S)) := by
  have h3 := (inv_of_reachable hS hr).count_le
  simp only [push_fst, unshift_fst, size, push_count, unshift_count]
  by_cases hc : s.count = S
  · simp [hc]
  · have : s.count < S := by omega
    simp [hc, this]

/-- Instance of C2: capacity 2 after one `push`. -/
theorem C2_insert_result_witness :
    (((push (run (new Nat 2) [Op.push 1]) 5).1 = true ↔ (run (new Nat 2) [Op.push 1]).count < 2) ∧
      ((push (run (new Nat 2) [Op.push 1]) 5).1 = true →
        size (push (run (new Nat 2) [Op.push 1]) 5).2 = size (run (new Nat 2) [Op.push 1]) + 1) ∧
      ((push (run (new Nat 2) [Op.push 1]) 5).1 = false ↔ (run (new Nat 2) [Op.push 1]).count = 2) ∧
      ((push (run (new Nat 2) [Op.push 1]) 5).1 = false →
        size (push (run (new Nat 2) [Op.push 1]) 5).2 = 2)) ∧
    (((unshift (run (new Nat 2) [Op.push 1]) 5).1 = true ↔
        (run (new Nat 2) [Op.push 1]).count < 2) ∧
      ((unshift (run (new Nat 2) [Op.push 1]) 5).1 = true →
        size (unshift (run (new Nat 2) [Op.push 1]) 5).2 =
          size (run (new Nat 2) [Op.push 1]) + 1) ∧
      ((unshift (run (new Nat 2) [Op.push 1]) 5).1 = false ↔
        (run (new Nat 2) [Op.push 1]).count = 2) ∧
      ((unshift (run (new Nat 2) [Op.push 1]) 5).1 = false →
        size (unshift (run (new Nat 2) [Op.push 1]) 5).2 = 2)) :=
  C2_insert_result (by decide) ⟨[Op.push 1], rfl⟩ 5

/-- C3: for `n ≤ S` values pushed onto a newly constructed buffer, `size ()` is
`n`, every one of the pushes returned `true`, and `isFull ()` is true if and
only if `n = S`. -/
theorem C3_push_within_capacity (vs : List T) (hn : vs.length ≤ S) :
    size (pushAll (new T S) vs) = vs.length ∧
      pushResults (new T S) vs = List.replicate vs.length true ∧
      (isFull (pushAll (new T S) vs) = true ↔ vs.length = S) := by
  have hc : (pushAll (new T S) vs).count = vs.length := by
    rw [count_pushAll vs (new T S) (by simpa [new] using hn)]
    simp [new]
  refine ⟨hc, pushResults_true vs (new T S) (by simpa [new] using hn), ?_⟩
  simp [isFull, hc]

/-- Instance of C3: capacity 3, two values pushed. -/
theorem C3_push_within_capacity_witness :
    size (pushAll (new Nat 3) [7, 8]) = [7, 8].length ∧
      pushResults (new Nat 3) [7, 8] = List.replicate [7, 8].length true ∧
      (isFull (pushAll (new Nat 3) [7, 8]) = true ↔ [7, 8].length = 3) :=
  C3_push_within_capacity [7, 8] (by decide)

/-- C4: for `N ≤ S` values `v0 .. v(N-1)` pushed in order onto a newly
constructed buffer, `buffer[i]` is `v_i` for every `i < N`; when `S ≥ 2` the
first pushed value sits in physical slot 1, not in slot 0. -/
theorem C4_index_after_push (hS : 0 < S) (vs : List T) (hn : vs.length ≤ S) :
    (∀ (i : Nat) (hi : i < vs.length), get (pushAll (new T S) vs) i = some (vs.get ⟨i, hi⟩)) ∧
      (2 ≤ S → ∀ v : T, (push (new T S) v).2.head = 1 ∧
        slot (push (new T S) v).2.buffer 1 = some v) := by
  constructor
  · intro i hi
    have hcont : contents (pushAll (new T S) vs) = vs.map some := by
      rw [contents_pushAll_new hS vs, Nat.sub_eq_zero_of_le hn, List.drop_zero]
    have hc : (pushAll (new T S) vs).count = vs.length := by
      rw [← length_contents, hcont, List.length_map]
    rw [get_of_contents hcont (by omega), List.getElem?_eq_getElem hi]
    rfl
  · intro h2 v
    have e1 : ¬ (0 : Nat) = S := by omega
    have e2 : ¬ (0 : Nat) + 1 = S := by omega
    simp only [push_head, push_buffer, slot_construct, new, if_neg e1, if_neg e2, if_true,
      List.length_replicate]
    exact ⟨trivial, if_pos ⟨trivial, by omega⟩⟩

/-- Instance of C4: capacity 3, three values pushed. -/
theorem C4_index_after_push_witness :
    (∀ (i : Nat) (hi : i < [4, 5, 6].length),
        get (pushAll (new Nat 3) [4, 5, 6]) i = some ([4, 5, 6].get ⟨i, hi⟩)) ∧
      (2 ≤ 3 → ∀ v : Nat, (push (new Nat 3) v).2.head = 1 ∧
        slot (push (new Nat 3) v).2.buffer 1 = some v) :=
  C4_index_after_push (by decide) [4, 5, 6] (by decide)

/-- C5: for capacity `S ≥ 1` and any list of values, unshifting them in order
onto a newly constructed buffer gives logical contents that are the reverse of
those obtained by pushing the same values in the same order, with equal
`size ()`. -/
theorem C5_unshift_reverses_push (hS : 0 < S) (vs : List T) :
    contents (unshiftAll (new T S) vs) = (contents (pushAll (new T S) vs)).reverse ∧
      size (unshiftAll (new T S) vs) = size (pushAll (new T S) vs) := by
  have h : contents (unshiftAll (new T S) vs) = (contents (pushAll (new T S) vs)).reverse := by
    rw [contents_unshiftAll hS vs (inv_new hS), contents_pushAll hS vs (inv_new hS),
      contents_new]
    exact foldl_unshiftModel vs []
  refine ⟨h, ?_⟩
  have := congrArg List.length h
  rwa [List.length_reverse, length_contents, length_contents] at this

/-- Instance of C5: capacity 2, three values. -/
theorem C5_unshift_reverses_push_witness :
    contents (unshiftAll (new Nat 2) [1, 2, 3]) =
        (contents (pushAll (new Nat 2) [1, 2, 3])).reverse ∧
      size (unshiftAll (new Nat 2) [1, 2, 3]) = size (pushAll (new Nat 2) [1, 2, 3]) :=
  C5_unshift_reverses_push (by decide) [1, 2, 3]

/-- C6: in every empty state reachable from construction, `push (v)` followed
at once by `pop ()` makes `pop` return `v` and leaves `isEmpty ()` true. -/
theorem C6_push_pop_on_empty [Inhabited T] (hS : 0 < S) {s : CircularBuffer T S}
    (hr : Reachable s) (he : isEmpty s = true) (v : T) :
    (pop (push s v).2).1 = some v ∧ isEmpty (pop (push s v).2).2 = true := by
  have hinv := inv_of_reachable hS hr
  have h0 : s.count = 0 := by simpa [isEmpty] using he
  have e1 : ¬ s.count = S := by omega
  have hc : (push s v).2.count = 1 := by rw [push_count, if_neg e1, h0]
  rw [pop_of_pos _ (by omega)]
  refine ⟨last_push hS hinv v, ?_⟩
  simp [isEmpty, hc]

/-- Instance of C6: capacity 3, a buffer emptied by `shift` (head and tail
differ). -/
theorem C6_push_pop_on_empty_witness :
    (pop (push (run (new Nat 3) [Op.push 1, Op.shift]) 8).2).1 = some 8 ∧
      isEmpty (pop (push (run (new Nat 3) [Op.push 1, Op.shift]) 8).2).2 = true :=
  C6_push_pop_on_empty (by decide) ⟨[Op.push 1, Op.shift], rfl⟩ (by decide) 8

/-- C7: in every state with `count == 0`, `shift ()` and `pop ()` take the
`return nullptr` path and leave the state as it was (head, tail, count and every
slot), so that `size ()` is still 0. -/
theorem C7_remove_on_empty [Inhabited T] {s : CircularBuffer T S} (he : s.count = 0) :
    shift s = (some default, s) ∧ pop s = (some default, s) ∧
      size (shift s).2 = 0 ∧ size (pop s).2 = 0 := by
  rw [shift_of_zero s he, pop_of_zero s he]
  exact ⟨rfl, rfl, he, he⟩

/-- Instance of C7: capacity 3, a buffer emptied by `pop`. -/
theorem C7_remove_on_empty_witness :
    shift (run (new Nat 3) [Op.push 1, Op.pop]) =
        (some default, run (new Nat 3) [Op.push 1, Op.pop]) ∧
      pop (run (new Nat 3) [Op.push 1, Op.pop]) =
        (some default, run (new Nat 3) [Op.push 1, Op.pop]) ∧
      size (shift (run (new Nat 3) [Op.push 1, Op.pop])).2 = 0 ∧
      size (pop (run (new Nat 3) [Op.push 1, Op.pop])).2 = 0 :=
  C7_remove_on_empty (by decide)

/-- C8: in every state, `clear ()` yields `count == 0` with `head` and `tail`
both at the start of the backing array, so that `isEmpty ()` is true, `size ()`
is 0 and `available ()` is the capacity. -/
theorem C8_clear_resets (s : CircularBuffer T S) :
    (clear s).count = 0 ∧ (clear s).head = 0 ∧ (clear s).tail = 0 ∧
      isEmpty (clear s) = true ∧ size (clear s) = 0 ∧ available (clear s) = S :=
  ⟨rfl, rfl, rfl, rfl, rfl, rfl⟩

/-- C9: the scenario of capacity 3: `push (1)`, `push (2)`, `push (3)` give
`size () == 3` and `isFull ()`; `push (4)` returns false and leaves 2, 3, 4;
`shift ()` returns 2 and leaves size 2; `unshift (9)` returns true, with
`first () == 9` and size 3. -/
theorem C9_scenario_capacity_three :
    size (pushAll (new Nat 3) [1, 2, 3]) = 3 ∧
      isFull (pushAll (new Nat 3) [1, 2, 3]) = true ∧
      (push (pushAll (new Nat 3) [1, 2, 3]) 4).1 = false ∧
      first (push (pushAll (new Nat 3) [1, 2, 3]) 4).2 = some 2 ∧
      last (push (pushAll (new Nat 3) [1, 2, 3]) 4).2 = some 4 ∧
      get (push (pushAll (new Nat 3) [1, 2, 3]) 4).2 0 = some 2 ∧
      get (push (pushAll (new Nat 3) [1, 2, 3]) 4).2 1 = some 3 ∧
      get (push (pushAll (new Nat 3) [1, 2, 3]) 4).2 2 = some 4 ∧
      (shift (push (pushAll (new Nat 3) [1, 2, 3]) 4).2).1 = some 2 ∧
      size (shift (push (pushAll (new Nat 3) [1, 2, 3]) 4).2).2 = 2 ∧
      (unshift (shift (push (pushAll (new Nat 3) [1, 2, 3]) 4).2).2 9).1 = true ∧
      first (unshift (shift (push (pushAll (new Nat 3) [1, 2, 3]) 4).2).2 9).2 = some 9 ∧
      size (unshift (shift (push (pushAll (new Nat 3) [1, 2, 3]) 4).2).2 9).2 = 3 := by
  decide

/-- C10: evaluation of `push` at the input where the code departs from the
claim.  On a full buffer of capacity 2 holding 1, 2, the call `push (first ())`
passes a reference to the element that is about to be evicted; the code destroys
that element and then constructs the new element from it, so `last ()` refers to
a slot without a constructed object and the logical contents are not
`L.tail ++ [1]`.  The same call with a copy of the value gives what the claim
states. -/
theorem C10_push_first_on_full :
    isFull (run (new Nat 2) [Op.push 1, Op.push 2]) = true ∧
      contents (run (new Nat 2) [Op.push 1, Op.push 2]) = [some 1, some 2] ∧
      first (run (new Nat 2) [Op.push 1, Op.push 2]) = some 1 ∧
      Arg.read (run (new Nat 2) [Op.push 1, Op.push 2]).buffer
        (Arg.ref (run (new Nat 2) [Op.push 1, Op.push 2]).head) = some 1 ∧
      last (pushArg (run (new Nat 2) [Op.push 1, Op.push 2])
        (Arg.ref (run (new Nat 2) [Op.push 1, Op.push 2]).head)).2 = none ∧
      contents (pushArg (run (new Nat 2) [Op.push 1, Op.push 2])
        (Arg.ref (run (new Nat 2) [Op.push 1, Op.push 2]).head)).2 = [some 2, none] ∧
      last (pushArg (run (new Nat 2) [Op.push 1, Op.push 2]) (Arg.val 1)).2 = some 1 ∧
      contents (pushArg (run (new Nat 2) [Op.push 1, Op.push 2]) (Arg.val 1)).2 =
        [some 2, some 1] := by
  decide

/-- C11: evaluation of `unshift` at the input where the code departs from the
claim.  On a full buffer of capacity 2 holding 1, 2, the call
`unshift (last ())` passes a reference to the element that is about to be
evicted; the code destroys that element and then constructs the new element from
it, so `first ()` refers to a slot without a constructed object and the logical
contents are not `2 :: L.dropLast`.  The same call with a copy of the value
gives what the claim states. -/
theorem C11_unshift_last_on_full :
    isFull (run (new Nat 2) [Op.push 1, Op.push 2]) = true ∧
      contents (run (new Nat 2) [Op.push 1, Op.push 2]) = [some 1, some 2] ∧
      last (run (new Nat 2) [Op.push 1, Op.push 2]) = some 2 ∧
      Arg.read (run (new Nat 2) [Op.push 1, Op.push 2]).buffer
        (Arg.ref (run (new Nat 2) [Op.push 1, Op.push 2]).tail) = some 2 ∧
      first (unshiftArg (run (new Nat 2) [Op.push 1, Op.push 2])
        (Arg.ref (run (new Nat 2) [Op.push 1, Op.push 2]).tail)).2 = none ∧
      contents (unshiftArg (run (new Nat 2) [Op.push 1, Op.push 2])
        (Arg.ref (run (new Nat 2) [Op.push 1, Op.push 2]).tail)).2 = [none, some 1] ∧
      first (unshiftArg (run (new Nat 2) [Op.push 1, Op.push 2]) (Arg.val 2)).2 = some 2 ∧
      contents (unshiftArg (run (new Nat 2) [Op.push 1, Op.push 2]) (Arg.val 2)).2 =
        [some 2, some 1] := by
  decide

/-- C12: in every non-empty state reachable from construction with logical
contents `L`, `shift ()` returns the first element of `L`, which is the value of
`first ()` before the call and is a constructed object; `size ()` drops by one
and the logical contents become `L.tail`. -/
theorem C12_shift_contents [Inhabited T] (hS : 0 < S) {s : CircularBuffer T S}
    (hr : Reachable s) (hne : isEmpty s = false) :
    (shift s).1 = first s ∧ (contents s).head? = some (shift s).1 ∧
      (∃ v, (shift s).1 = some v) ∧
      size (shift s).2 + 1 = size s ∧
      contents (shift s).2 = (contents s).tail := by
  have hinv := inv_of_reachable hS hr
  have hl := live_of_reachable hS hr
  have hc : 0 < s.count := by
    have : s.count ≠ 0 := by simpa [isEmpty] using hne
    omega
  have hres : (shift s).1 = first s := shift_fst hc
  refine ⟨hres, ?_, ?_, ?_, contents_shift hinv⟩
  · rw [hres]; exact head?_contents hinv hc
  · rw [hres]
    have h1 := hinv.head_lt
    have : (slot s.buffer s.head).isSome = true :=
      ((liveInv_iff h1 hinv.count_le).mp hl _ h1).mpr (by omega)
    exact Option.isSome_iff_exists.mp this
  · simp only [size, shift_count]; omega

/-- Instance of C12: capacity 3 after two pushes. -/
theorem C12_shift_contents_witness :
    (shift (run (new Nat 3) [Op.push 1, Op.push 2])).1 =
        first (run (new Nat 3) [Op.push 1, Op.push 2]) ∧
      (contents (run (new Nat 3) [Op.push 1, Op.push 2])).head? =
        some (shift (run (new Nat 3) [Op.push 1, Op.push 2])).1 ∧
      (∃ v, (shift (run (new Nat 3) [Op.push 1, Op.push 2])).1 = some v) ∧
      size (shift (run (new Nat 3) [Op.push 1, Op.push 2])).2 + 1 =
        size (run (new Nat 3) [Op.push 1, Op.push 2]) ∧
      contents (shift (run (new Nat 3) [Op.push 1, Op.push 2])).2 =
        (contents (run (new Nat 3) [Op.push 1, Op.push 2])).tail :=
  C12_shift_contents (by decide) ⟨[Op.push 1, Op.push 2], rfl⟩ (by decide)

/-- C13: in every non-empty state reachable from construction with logical
contents `L`, `pop ()` returns the last element of `L`, which is the value of
`last ()` before the call and is a constructed object; `size ()` drops by one
and the logical contents become `L.dropLast`. -/
theorem C13_pop_contents [Inhabited T] (hS : 0 < S) {s : CircularBuffer T S}
    (hr : Reachable s) (hne : isEmpty s = false) :
    (pop s).1 = last s ∧ (contents s).getLast? = some (pop s).1 ∧
      (∃ v, (pop s).1 = some v) ∧
      size (pop s).2 + 1 = size s ∧
      contents (pop s).2 = (contents s).dropLast := by
  have hinv := inv_of_reachable hS hr
  have hl := live_of_reachable hS hr
  have hc : 0 < s.count := by
    have : s.count ≠ 0 := by simpa [isEmpty] using hne
    omega
  have hres : (pop s).1 = last s := pop_fst hc
  refine ⟨hres, ?_, ?_, ?_, contents_pop hinv⟩
  · rw [hres]; exact getLast?_contents hinv hc
  · rw [hres]
    have h1 := hinv.head_lt
    have h2 := hinv.tail_lt
    have h5 := hinv.tail_cases hc
    have : (slot s.buffer s.tail).isSome = true :=
      ((liveInv_iff h1 hinv.count_le).mp hl _ h2).mpr (by omega)
    exact Option.isSome_iff_exists.mp this
  · simp only [size, pop_count]; omega

/-- Instance of C13: capacity 3 after two pushes. -/
theorem C13_pop_contents_witness :
    (pop (run (new Nat 3) [Op.push 1, Op.push 2])).1 =
        last (run (new Nat 3) [Op.push 1, Op.push 2]) ∧
      (contents (run (new Nat 3) [Op.push 1, Op.push 2])).getLast? =
        some (pop (run (new Nat 3) [Op.push 1, Op.push 2])).1 ∧
      (∃ v, (pop (run (new Nat 3) [Op.push 1, Op.push 2])).1 = some v) ∧
      size (pop (run (new Nat 3) [Op.push 1, Op.push 2])).2 + 1 =
        size (run (new Nat 3) [Op.push 1, Op.push 2]) ∧
      contents (pop (run (new Nat 3) [Op.push 1, Op.push 2])).2 =
        (contents (run (new Nat 3) [Op.push 1, Op.push 2])).dropLast :=
  C13_pop_contents (by decide) ⟨[Op.push 1, Op.push 2], rfl⟩ (by decide)

/-- C14: for every capacity `S ≥ 1` the cursor invariant (`head`, `tail` in
`[0, S)`, `count ≤ S`, and `tail = (head + count - 1) mod S` when `count > 0`)
holds after construction and is preserved by `push`, `unshift`, `shift`, `pop`
and `clear`. -/
theorem C14_cursor_invariant [Inhabited T] (hS : 0 < S) :
    CursorInv (new T S) ∧
      ∀ s : CircularBuffer T S, CursorInv s →
        (∀ v : T, CursorInv (push s v).2) ∧ (∀ v : T, CursorInv (unshift s v).2) ∧
          CursorInv (shift s).2 ∧ CursorInv (pop s).2 ∧ CursorInv (clear s) :=
  ⟨cursorInv_of_inv (inv_new hS), fun s h =>
    ⟨cursorInv_push h, cursorInv_unshift h, cursorInv_shift h, cursorInv_pop h,
      cursorInv_clear hS s⟩⟩

/-- Instance of C14: capacity 3. -/
theorem C14_cursor_invariant_witness :
    CursorInv (new Nat 3) ∧
      ∀ s : CircularBuffer Nat 3, CursorInv s →
        (∀ v : Nat, CursorInv (push s v).2) ∧ (∀ v : Nat, CursorInv (unshift s v).2) ∧
          CursorInv (shift s).2 ∧ CursorInv (pop s).2 ∧ CursorInv (clear s) :=
  C14_cursor_invariant (by decide)

/-- C15: in every state reachable from construction the slots that hold a
constructed object are exactly the slots at positions `(head + i) mod S`,
`i < count`; these positions are pairwise distinct, so exactly `count` slots are
live; and in every call made from such a state each placement construction
targets a slot that holds no object at that moment and each destructor call
targets a slot that holds one. -/
theorem C15_live_slots [Inhabited T] (hS : 0 < S) {s : CircularBuffer T S}
    (hr : Reachable s) :
    LiveInv s ∧ liveCount s = s.count ∧
      (∀ i j, i < s.count → j < s.count → (s.head + i) % S = (s.head + j) % S → i = j) ∧
      ∀ op : Op T, stepOk s op = true := by
  have hinv := inv_of_reachable hS hr
  have hl := live_of_reachable hS hr
  exact ⟨hl, liveCount_eq hinv hl,
    fun i j hi hj hij => slotIndex_inj hinv.head_lt hinv.count_le hi hj hij,
    fun op => stepOk_of_live hS hinv hl op⟩

/-- Instance of C15: capacity 3 after a wrap-around. -/
theorem C15_live_slots_witness :
    LiveInv (run (new Nat 3) [Op.push 1, Op.push 2, Op.shift, Op.push 3]) ∧
      liveCount (run (new Nat 3) [Op.push 1, Op.push 2, Op.shift, Op.push 3]) =
        (run (new Nat 3) [Op.push 1, Op.push 2, Op.shift, Op.push 3]).count ∧
      (∀ i j, i < (run (new Nat 3) [Op.push 1, Op.push 2, Op.shift, Op.push 3]).count →
        j < (run (new Nat 3) [Op.push 1, Op.push 2, Op.shift, Op.push 3]).count →
        ((run (new Nat 3) [Op.push 1, Op.push 2, Op.shift, Op.push 3]).head + i) % 3 =
          ((run (new Nat 3) [Op.push 1, Op.push 2, Op.shift, Op.push 3]).head + j) % 3 →
        i = j) ∧
      ∀ op : Op Nat,
        stepOk (run (new Nat 3) [Op.push 1, Op.push 2, Op.shift, Op.push 3]) op = true :=
  C15_live_slots (by decide) ⟨[Op.push 1, Op.push 2, Op.shift, Op.push 3], rfl⟩

/-- C16: in every non-empty state reachable from construction, `operator []`
agrees with the end accessors: index 0 selects the slot `head` that `first ()`
reads, and index `size () - 1` selects the slot `tail` that `last ()` reads
(also when the index sum is evaluated in `w` bits, for `2 * S ≤ 2 ^ w`). -/
theorem C16_index_agrees_with_ends [Inhabited T] (hS : 0 < S) {s : CircularBuffer T S}
    (hr : Reachable s) (hne : isEmpty s = false) :
    (slotIndex s 0 = s.head ∧ slotIndex s (size s - 1) = s.tail) ∧
      (get s 0 = first s ∧ get s (size s - 1) = last s) ∧
      ∀ w, 2 * S ≤ 2 ^ w →
        (slotIndexW w s 0 = s.head ∧ slotIndexW w s (size s - 1) = s.tail) ∧
          (getW w s 0 = first s ∧ getW w s (size s - 1) = last s) := by
  have hinv := inv_of_reachable hS hr
  have h1 := hinv.head_lt
  have h3 := hinv.count_le
  have hc : 0 < s.count := by
    have : s.count ≠ 0 := by simpa [isEmpty] using hne
    omega
  have e0 : slotIndex s 0 = s.head := by
    simp only [slotIndex, Nat.add_zero, Nat.mod_eq_of_lt h1]
  have e1 : slotIndex s (size s - 1) = s.tail := by
    have e : s.head + (s.count - 1) = s.head + s.count - 1 := by omega
    simp only [slotIndex, size, e, ← hinv.tail_eq hc]
  refine ⟨⟨e0, e1⟩, ⟨get_zero hinv, get_count_pred hinv hc⟩, fun w hw => ?_⟩
  have w0 : slotIndexW w s 0 = s.head := by
    rw [slotIndexW_eq (by omega), e0]
  have w1 : slotIndexW w s (size s - 1) = s.tail := by
    rw [slotIndexW_eq (by simp only [size]; omega), e1]
  refine ⟨⟨w0, w1⟩, ?_, ?_⟩
  · simp only [getW, w0, first]
  · simp only [getW, w1, last]

/-- Instance of C16: capacity 3 after a wrap-around. -/
theorem C16_index_agrees_with_ends_witness :
    (slotIndex (run (new Nat 3) [Op.push 1, Op.push 2, Op.shift, Op.push 3]) 0 =
        (run (new Nat 3) [Op.push 1, Op.push 2, Op.shift, Op.push 3]).head ∧
      slotIndex (run (new Nat 3) [Op.push 1, Op.push 2, Op.shift, Op.push 3])
          (size (run (new Nat 3) [Op.push 1, Op.push 2, Op.shift, Op.push 3]) - 1) =
        (run (new Nat 3) [Op.push 1, Op.push 2, Op.shift, Op.push 3]).tail) ∧
      (get (run (new Nat 3) [Op.push 1, Op.push 2, Op.shift, Op.push 3]) 0 =
          first (run (new Nat 3) [Op.push 1, Op.push 2, Op.shift, Op.push 3]) ∧
        get (run (new Nat 3) [Op.push 1, Op.push 2, Op.shift, Op.push 3])
            (size (run (new Nat 3) [Op.push 1, Op.push 2, Op.shift, Op.push 3]) - 1) =
          last (run (new Nat 3) [Op.push 1, Op.push 2, Op.shift, Op.push 3])) ∧
      ∀ w, 2 * 3 ≤ 2 ^ w →
        (slotIndexW w (run (new Nat 3) [Op.push 1, Op.push 2, Op.shift, Op.push 3]) 0 =
            (run (new Nat 3) [Op.push 1, Op.push 2, Op.shift, Op.push 3]).head ∧
          slotIndexW w (run (new Nat 3) [Op.push 1, Op.push 2, Op.shift, Op.push 3])
              (size (run (new Nat 3) [Op.push 1, Op.push 2, Op.shift, Op.push 3]) - 1) =
            (run (new Nat 3) [Op.push 1, Op.push 2, Op.shift, Op.push 3]).tail) ∧
          (getW w (run (new Nat 3) [Op.push 1, Op.push 2, Op.shift, Op.push 3]) 0 =
              first (run (new Nat 3) [Op.push 1, Op.push 2, Op.shift, Op.push 3]) ∧
            getW w (run (new Nat 3) [Op.push 1, Op.push 2, Op.shift, Op.push 3])
                (size (run (new Nat 3) [Op.push 1, Op.push 2, Op.shift, Op.push 3]) - 1) =
              last (run (new Nat 3) [Op.push 1, Op.push 2, Op.shift, Op.push 3])) :=
  C16_index_agrees_with_ends (by decide)
    ⟨[Op.push 1, Op.push 2, Op.shift, Op.push 3], rfl⟩ (by decide)

/-- C17, as stated, fails when the index sum wraps: with capacity 300 (index type
of 16 bits), `head` at slot 1 and the sum evaluated in 16 bits, index 65535 is
representable and `operator []` selects slot 0, whereas `(head + index) mod 300`
is slot 136. -/
theorem C17_counterexample :
    (run (new Nat 300) [Op.push 7]).head = 1 ∧
      slotIndexW 16 (run (new Nat 300) [Op.push 7]) 65535 = 0 ∧
      ((run (new Nat 300) [Op.push 7]).head + 65535) % 300 = 136 := by
  decide

/-- C17, amended: in every state reachable from construction and for every
index, `operator []` selects slot `((head + index) mod 2 ^ w) mod S`, `w` being
the width in which the sum is evaluated; this is always a slot position in
`[0, S)`, inside the backing array, and it is `(head + index) mod S` whenever
`head + index < 2 ^ w`, in particular for every `index < size ()` when
`2 * S ≤ 2 ^ w`. -/
theorem C17_index_slot_valid [Inhabited T] (hS : 0 < S) {s : CircularBuffer T S}
    (hr : Reachable s) (w index : Nat) :
    getW w s index = slot s.buffer (((s.head + index) % 2 ^ w) % S) ∧
      slotIndexW w s index < S ∧ slotIndexW w s index < s.buffer.length ∧
      (s.head + index < 2 ^ w →
        slotIndexW w s index = (s.head + index) % S ∧ getW w s index = get s index) ∧
      (2 * S ≤ 2 ^ w → index < size s →
        slotIndexW w s index = (s.head + index) % S ∧ getW w s index = get s index) ∧
      (s.head + index) % S < S := by
  have hinv := inv_of_reachable hS hr
  have h1 := hinv.head_lt
  have h3 := hinv.count_le
  have key : s.head + index < 2 ^ w →
      slotIndexW w s index = (s.head + index) % S ∧ getW w s index = get s index := by
    intro h
    have e := slotIndexW_eq h
    exact ⟨e, by simp only [getW, e, get, slotIndex]⟩
  refine ⟨rfl, slotIndexW_lt hS s w index, ?_, key, fun hw hi => key ?_, Nat.mod_lt _ hS⟩
  · rw [hinv.len]; exact slotIndexW_lt hS s w index
  · simp only [size] at hi; omega

/-- Instance of C17: capacity 3, 16-bit sum, the largest 16-bit index. -/
theorem C17_index_slot_valid_witness :
    getW 16 (run (new Nat 3) [Op.push 7]) 65535 =
        slot (run (new Nat 3) [Op.push 7]).buffer
          ((((run (new Nat 3) [Op.push 7]).head + 65535) % 2 ^ 16) % 3) ∧
      slotIndexW 16 (run (new Nat 3) [Op.push 7]) 65535 < 3 ∧
      slotIndexW 16 (run (new Nat 3) [Op.push 7]) 65535 <
        (run (new Nat 3) [Op.push 7]).buffer.length ∧
      ((run (new Nat 3) [Op.push 7]).head + 65535 < 2 ^ 16 →
        slotIndexW 16 (run (new Nat 3) [Op.push 7]) 65535 =
            ((run (new Nat 3) [Op.push 7]).head + 65535) % 3 ∧
          getW 16 (run (new Nat 3) [Op.push 7]) 65535 =
            get (run (new Nat 3) [Op.push 7]) 65535) ∧
      (2 * 3 ≤ 2 ^ 16 → 65535 < size (run (new Nat 3) [Op.push 7]) →
        slotIndexW 16 (run (new Nat 3) [Op.push 7]) 65535 =
            ((run (new Nat 3) [Op.push 7]).head + 65535) % 3 ∧
          getW 16 (run (new Nat 3) [Op.push 7]) 65535 =
            get (run (new Nat 3) [Op.push 7]) 65535) ∧
      ((run (new Nat 3) [Op.push 7]).head + 65535) % 3 < 3 :=
  C17_index_slot_valid (by decide) ⟨[Op.push 7], rfl⟩ 16 65535

/-- C18, as stated, fails: on a newly constructed buffer of capacity 3 `head`
is slot 0, and `unshift (5)` leaves slot 0 without an object and writes 5 into
slot 2. -/
theorem C18_counterexample :
    isEmpty (new Nat 3) = true ∧ (new Nat 3).head = 0 ∧
      slot (unshift (new Nat 3) 5).2.buffer 0 = none ∧
      slot (unshift (new Nat 3) 5).2.buffer 2 = some 5 := by
  decide

/-- C18, amended: in every empty state reachable from construction,
`unshift (v)` writes `v` into the slot one position before `head`, circularly
(`(head + S - 1) mod S`), moves `head` to that slot and leaves every other slot
as it was; that slot is the one `head` referenced before the call only when the
capacity is 1. -/
theorem C18_unshift_write_target [Inhabited T] (hS : 0 < S) {s : CircularBuffer T S}
    (hr : Reachable s) (he : isEmpty s = true) (v : T) :
    (unshift s v).2.head = (s.head + S - 1) % S ∧
      slot (unshift s v).2.buffer ((s.head + S - 1) % S) = some v ∧
      (∀ p, p ≠ (s.head + S - 1) % S → slot (unshift s v).2.buffer p = slot s.buffer p) ∧
      ((s.head + S - 1) % S = s.head ↔ S = 1) ∧
      first (unshift s v).2 = some v ∧ last (unshift s v).2 = some v := by
  have hinv := inv_of_reachable hS hr
  have h1 := hinv.head_lt
  have h0 : s.count = 0 := by simpa [isEmpty] using he
  have e : (if s.head = 0 then S else s.head) - 1 = (s.head + S - 1) % S := by
    rw [mod_wrap (by omega)]
    split_ifs <;> omega
  have hlt : (s.head + S - 1) % S < S := Nat.mod_lt _ hS
  have hf := first_unshift hS hinv v
  have hne : ¬ s.count = S := by omega
  refine ⟨?_, ?_, ?_, ?_, hf, ?_⟩
  · rw [unshift_head, e]
  · rw [unshift_buffer, e, slot_construct, hinv.len, if_pos ⟨rfl, hlt⟩]
  · intro p hp
    rw [unshift_buffer, e, slot_construct, if_neg (fun h => hp h.1.symm)]
  · rw [mod_wrap (by omega)]
    split_ifs <;> omega
  · simp only [last, first, unshift_tail, unshift_head, if_neg hne, if_pos h0] at hf ⊢
    exact hf

/-- Instance of C18: a newly constructed buffer of capacity 3. -/
theorem C18_unshift_write_target_witness :
    (unshift (run (new Nat 3) []) 5).2.head = ((run (new Nat 3) []).head + 3 - 1) % 3 ∧
      slot (unshift (run (new Nat 3) []) 5).2.buffer
          (((run (new Nat 3) []).head + 3 - 1) % 3) = some 5 ∧
      (∀ p, p ≠ ((run (new Nat 3) []).head + 3 - 1) % 3 →
        slot (unshift (run (new Nat 3) []) 5).2.buffer p =
          slot (run (new Nat 3) []).buffer p) ∧
      (((run (new Nat 3) []).head + 3 - 1) % 3 = (run (new Nat 3) []).head ↔ 3 = 1) ∧
      first (unshift (run (new Nat 3) []) 5).2 = some 5 ∧
      last (unshift (run (new Nat 3) []) 5).2 = some 5 :=
  C18_unshift_write_target (by decide) ⟨[], rfl⟩ (by decide) 5

/-- C19: in every non-full state reachable from construction with logical
contents `L`, `push (v)` followed by `pop ()` returns `v` and leaves the logical
contents `L`, and `unshift (v)` followed by `shift ()` returns `v` and leaves
the logical contents `L`. -/
theorem C19_insert_then_remove [Inhabited T] (hS : 0 < S) {s : CircularBuffer T S}
    (hr : Reachable s) (hnf : isFull s = false) (v : T) :
    ((pop (push s v).2).1 = some v ∧ contents (pop (push s v).2).2 = contents s) ∧
      ((shift (unshift s v).2).1 = some v ∧
        contents (shift (unshift s v).2).2 = contents s) := by
  have hinv := inv_of_reachable hS hr
  have h3 := hinv.count_le
  have hc : s.count < S := by
    have : s.count ≠ S := by simpa [isFull] using hnf
    omega
  have hne : ¬ s.count = S := by omega
  have hp : 0 < (push s v).2.count := by rw [push_count, if_neg hne]; omega
  have hu : 0 < (unshift s v).2.count := by rw [unshift_count, if_neg hne]; omega
  refine ⟨⟨?_, ?_⟩, ⟨?_, ?_⟩⟩
  · rw [pop_fst hp, last_push hS hinv v]
  · rw [contents_pop (inv_push hS hinv v), contents_push hS hinv v]
    unfold pushModel
    rw [length_contents, if_pos hc, List.dropLast_concat]
  · rw [shift_fst hu, first_unshift hS hinv v]
  · rw [contents_shift (inv_unshift hS hinv v), contents_unshift hS hinv v]
    unfold unshiftModel
    rw [length_contents, if_pos hc, List.tail_cons]

/-- Instance of C19: capacity 3 holding two elements. -/
theorem C19_insert_then_remove_witness :
    ((pop (push (run (new Nat 3) [Op.push 1, Op.push 2]) 9).2).1 = some 9 ∧
        contents (pop (push (run (new Nat 3) [Op.push 1, Op.push 2]) 9).2).2 =
          contents (run (new Nat 3) [Op.push 1, Op.push 2])) ∧
      ((shift (unshift (run (new Nat 3) [Op.push 1, Op.push 2]) 9).2).1 = some 9 ∧
        contents (shift (unshift (run (new Nat 3) [Op.push 1, Op.push 2]) 9).2).2 =
          contents (run (new Nat 3) [Op.push 1, Op.push 2])) :=
  C19_insert_then_remove (by decide) ⟨[Op.push 1, Op.push 2], rfl⟩ (by decide) 9

/-- C20: for capacity `S ≥ 1`, an empty state reachable from construction and
`n ≤ S` values pushed in order, `n` successive `shift ()` calls return the
values in push order, `n` successive `pop ()` calls return them in reverse
order, and in both cases the buffer is empty afterwards. -/
theorem C20_fifo_lifo [Inhabited T] (hS : 0 < S) {s : CircularBuffer T S}
    (hr : Reachable s) (he : isEmpty s = true) (vs : List T) (hn : vs.length ≤ S) :
    ((shiftN vs.length (pushAll s vs)).1 = vs.map some ∧
        isEmpty (shiftN vs.length (pushAll s vs)).2 = true) ∧
      ((popN vs.length (pushAll s vs)).1 = vs.reverse.map some ∧
        isEmpty (popN vs.length (pushAll s vs)).2 = true) := by
  have hinv := inv_of_reachable hS hr
  have h0 : s.count = 0 := by simpa [isEmpty] using he
  have hp := inv_pushAll hS vs hinv
  have hcont := contents_pushAll_of_empty hS hinv h0 vs hn
  have hcount : (pushAll s vs).count = vs.length := by
    rw [← length_contents, hcont, List.length_map]
  have hs := shiftN_contents hS vs.length hp hcount
  have hq := popN_contents hS vs.length hp hcount
  refine ⟨⟨?_, ?_⟩, ⟨?_, ?_⟩⟩
  · rw [hs.1, hcont]
  · simp [isEmpty, hs.2]
  · rw [hq.1, hcont, List.map_reverse]
  · simp [isEmpty, hq.2]

/-- Instance of C20: capacity 3, a buffer emptied by `shift`, three values. -/
theorem C20_fifo_lifo_witness :
    ((shiftN [4, 5, 6].length (pushAll (run (new Nat 3) [Op.push 1, Op.shift]) [4, 5, 6])).1 =
          [4, 5, 6].map some ∧
        isEmpty (shiftN [4, 5, 6].length
          (pushAll (run (new Nat 3) [Op.push 1, Op.shift]) [4, 5, 6])).2 = true) ∧
      ((popN [4, 5, 6].length (pushAll (run (new Nat 3) [Op.push 1, Op.shift]) [4, 5, 6])).1 =
          [4, 5, 6].reverse.map some ∧
        isEmpty (popN [4, 5, 6].length
          (pushAll (run (new Nat 3) [Op.push 1, Op.shift]) [4, 5, 6])).2 = true) :=
  C20_fifo_lifo (by decide) ⟨[Op.push 1, Op.shift], rfl⟩ (by decide) [4, 5, 6] (by decide)

end CircularBuffer
